import Mathlib

/-!
# Synchronization primitives of the DLXOS kernel (`os/synch.c`)

A shallow embedding of the semaphore, lock and condition-variable routines of
`synch.c`, followed by theorems about them.

Conventions of the embedding.

* A process is identified by its process id, an index into the process table,
  hence a natural number.  A `PCB *` stored in a queue link is represented by
  the pid that `GetPidFromAddress` gives for it.
* The `int` fields (`inuse`, `count`, the lock owner `pid`, handles) are
  integers.  The counter of a semaphore is a 32-bit `int`: `sem->count++` and
  `sem->count--` are taken modulo `2^32` into the range `-2^31 .. 2^31 - 1`.
* `ProcessSleep` suspends the calling process inside its call.  `SemWait` and
  `CondWait`, which change the semaphore or the lock after `ProcessSleep`,
  are given in two parts: the call up to its return or its suspension, and the
  statements that the woken process runs after `ProcessSleep`.  In
  `LockAcquire` and `CondSignal` nothing but `RestoreIntrs` and the return
  follows `ProcessSleep`, and the call is given in one part.
* A pointer argument (`Sem *`, `Lock *`) is an `Option`: `none` is `NULL`,
  `some x` is a pointer to an object whose current value is `x`; the routine
  returns the value of the pointee when it returns.
* The tables `sems`, `locks`, `conds` are lists; the pool sizes `MAX_SEMS`,
  `MAX_LOCKS`, `MAX_CONDS` (declared in `synch.h`) are the lengths of the lists.
-/

namespace Synch

/-! ## Constants of `synch.h` -/

/-- Modelled from the spec: `SYNC_FAIL` is declared in `synch.h`; the spec
describes it as the `-1`-class failure sentinel. -/
def SYNC_FAIL : Int := -1

/-- Modelled from the spec: `SYNC_SUCCESS` is declared in `synch.h`; it is the
success result, different from `SYNC_FAIL`. -/
def SYNC_SUCCESS : Int := 1

/-- Modelled from the spec: `INVALID_COND` is declared in `synch.h`; the spec
describes it as the `-1` sentinel for "invalid". -/
def INVALID_COND : Int := -1

/-- The value that a 32-bit `int` takes for the integer `x`: `x` reduced modulo
`2^32` into the range `-2^31 .. 2^31 - 1`. -/
def wrap32 (x : Int) : Int := (x + 2147483648) % 4294967296 - 2147483648

/-! ## The surrounding kernel: interrupts, sleeping and waking, queues -/

/-- The part of the kernel state outside `synch.c` that the routines act on:
the interrupt mask, the processes suspended by `ProcessSleep` and not woken
since, and the log of `ProcessWakeup` calls (oldest first). -/
structure Machine where
  -- interrupt delivery is enabled
  intrs : Bool
  -- processes dropped from the runnable set, in the order they went to sleep
  asleep : List Nat
  -- targets of the ProcessWakeup calls made so far, oldest first
  woken : List Nat
deriving DecidableEq

/-- Modelled from the spec: `DisableIntrs` (interrupt control, outside
`synch.c`) masks interrupt delivery and returns the prior mask. -/
def DisableIntrs (m : Machine) : Bool × Machine :=
  (m.intrs, { m with intrs := false })

/-- Modelled from the spec: `RestoreIntrs` (interrupt control, outside
`synch.c`) puts back a mask saved earlier. -/
def RestoreIntrs (intrval : Bool) (m : Machine) : Machine :=
  { m with intrs := intrval }

/-- Modelled from the spec: `ProcessSleep` (process management, outside
`synch.c`) drops the calling process out of the runnable set: the process is
suspended inside the call and continues with the statements after it only
once another process has woken it.  The interrupt mask is left as the routine
has set it; what the scheduler does with the mask while another process runs
is outside `synch.c`. -/
def ProcessSleep (cur : Nat) (m : Machine) : Machine :=
  { m with asleep := m.asleep ++ [cur] }

/-- Where a call stands when the calling process stops running: it has
returned with a result, or the process is suspended at `ProcessSleep` inside
the call and holds the interrupt mask that the call saved on entry. -/
inductive Ctl where
  | ret (r : Int)
  | slept (intrval : Bool)
deriving DecidableEq

/-- Modelled from the spec: `ProcessWakeup` (process management, outside
`synch.c`) marks the given process runnable. -/
def ProcessWakeup (pcb : Nat) (m : Machine) : Machine :=
  { m with asleep := m.asleep.erase pcb, woken := m.woken ++ [pcb] }

/-- Modelled from the spec: `AQueueInit` (queue management, outside `synch.c`)
makes the queue empty. -/
def AQueueInit : List Nat := []

/-- Modelled from the spec: `AQueueAllocLink` followed by `AQueueInsertLast`
(queue management, outside `synch.c`) puts the payload at the tail of the
queue.  Their failure is fatal to the whole kernel and is not modelled. -/
def AQueueInsertLast (q : List Nat) (pcb : Nat) : List Nat := q ++ [pcb]

/-! ## Semaphores -/

/-- The `Sem` structure of `synch.h`; `count` is a 32-bit `int`. -/
structure Sem where
  inuse : Int
  count : Int
  waiting : List Nat
deriving DecidableEq

/-- `SemInit`: empty the waiting queue and set the counter. -/
def SemInit (sem : Option Sem) (count : Int) : Int × Option Sem :=
  match sem with
  | none => (SYNC_FAIL, none)
  | some s => (SYNC_SUCCESS, some { s with waiting := AQueueInit, count := count })

/-- The statements of `SemWait` after its `if`: decrement the counter, restore
the saved interrupt mask and return `SYNC_SUCCESS`.  A caller that found the
counter positive runs them at once; a caller that was put to sleep runs them
when it continues after `ProcessSleep`, on the semaphore as it is then. -/
def SemWait.resume (intrval : Bool) (s : Sem) (m : Machine) : Int × Sem × Machine :=
  (SYNC_SUCCESS, { s with count := wrap32 (s.count - 1) }, RestoreIntrs intrval m)

/-- `SemWait` up to its return or its suspension: with interrupts off, if the
counter is not positive the caller is put at the tail of the waiting queue and
suspended at `ProcessSleep`, the counter untouched; otherwise the caller goes
on to decrement the counter, restore interrupts and return `SYNC_SUCCESS`. -/
def SemWait (cur : Nat) (sem : Option Sem) (m : Machine) : Ctl × Option Sem × Machine :=
  match sem with
  | none => (Ctl.ret SYNC_FAIL, none, m)
  | some s =>
    let (intrval, m1) := DisableIntrs m
    if s.count ≤ 0 then
      (Ctl.slept intrval, some { s with waiting := AQueueInsertLast s.waiting cur },
        ProcessSleep cur m1)
    else
      (Ctl.ret (SemWait.resume intrval s m1).1, some (SemWait.resume intrval s m1).2.1,
        (SemWait.resume intrval s m1).2.2)

/-- `SemSignal`: with interrupts off, increment the counter (a 32-bit `int`);
if it is now positive and the waiting queue is not empty, remove the first
process of the queue and wake it; restore interrupts and return
`SYNC_SUCCESS`. -/
def SemSignal (sem : Option Sem) (m : Machine) : Int × Option Sem × Machine :=
  match sem with
  | none => (SYNC_FAIL, none, m)
  | some s =>
    let (intrs, m1) := DisableIntrs m
    let s1 := { s with count := wrap32 (s.count + 1) }
    let (s2, m2) :=
      if s1.count > 0 then
        match s1.waiting with
        | [] => (s1, m1)
        | pcb :: rest => ({ s1 with waiting := rest }, ProcessWakeup pcb m1)
      else (s1, m1)
    (SYNC_SUCCESS, some s2, RestoreIntrs intrs m2)

/-! ## Locks -/

/-- The `Lock` structure of `synch.h`; `pid` is the owner, `-1` when free. -/
structure Lock where
  inuse : Int
  pid : Int
  waiting : List Nat
deriving DecidableEq

/-- `LockInit`: empty the waiting queue and clear the owner. -/
def LockInit (l : Option Lock) : Int × Option Lock :=
  match l with
  | none => (SYNC_FAIL, none)
  | some k => (SYNC_SUCCESS, some { k with waiting := AQueueInit, pid := -1 })

/-- `LockAcquire`: with interrupts off, succeed at once if the caller owns the
lock; otherwise, if the lock has an owner, put the caller at the tail of the
waiting queue and call `ProcessSleep`, else make the caller the owner.  The
only statements after `ProcessSleep` are `RestoreIntrs` and the return of
`SYNC_SUCCESS`, which touch nothing but the caller's own mask and result, so
the call of a suspended caller is given with them already done: the caller is
asleep in the machine and its result is the one it gets when it continues. -/
def LockAcquire (cur : Nat) (k : Option Lock) (m : Machine) : Int × Option Lock × Machine :=
  match k with
  | none => (SYNC_FAIL, none, m)
  | some k =>
    let (intrval, m1) := DisableIntrs m
    if k.pid = (cur : Int) then
      (SYNC_SUCCESS, some k, RestoreIntrs intrval m1)
    else
      let (k1, m2) :=
        if k.pid ≥ 0 then
          ({ k with waiting := AQueueInsertLast k.waiting cur }, ProcessSleep cur m1)
        else ({ k with pid := (cur : Int) }, m1)
      (SYNC_SUCCESS, some k1, RestoreIntrs intrval m2)

/-- `LockRelease`: with interrupts off, fail if the caller is not the owner
(this path returns without restoring the interrupt mask); otherwise clear the
owner and, if the waiting queue is not empty, remove its first process, make
it the owner and wake it. -/
def LockRelease (cur : Nat) (k : Option Lock) (m : Machine) : Int × Option Lock × Machine :=
  match k with
  | none => (SYNC_FAIL, none, m)
  | some k =>
    let (intrs, m1) := DisableIntrs m
    if k.pid ≠ (cur : Int) then
      (SYNC_FAIL, some k, m1)
    else
      let k1 := { k with pid := -1 }
      let (k2, m2) :=
        match k1.waiting with
        | [] => (k1, m1)
        | pcb :: rest => ({ k1 with waiting := rest, pid := (pcb : Int) }, ProcessWakeup pcb m1)
      (SYNC_SUCCESS, some k2, RestoreIntrs intrs m2)

/-! ## Condition variables -/

/-- The `Cond` structure of `synch.h`; `cond_lock` is the handle of the lock
given to `CondCreate`. -/
structure Cond where
  inuse : Int
  cond_lock : Int
  waiting : List Nat
deriving DecidableEq

/-- `CondInit`: empty the waiting queue and record the lock handle. -/
def CondInit (cond : Option Cond) (l : Int) : Int × Option Cond :=
  match cond with
  | none => (SYNC_FAIL, none)
  | some c => (SYNC_SUCCESS, some { c with waiting := AQueueInit, cond_lock := l })

/-- The first half of `CondWait`, up to and including the call of
`ProcessSleep`: with interrupts off, put the caller at the tail of the waiting
queue and put it to sleep.  The saved interrupt mask is returned for the
second half. -/
def CondWait.block (cur : Nat) (c : Cond) (m : Machine) : Bool × Cond × Machine :=
  let (intrval, m1) := DisableIntrs m
  (intrval, { c with waiting := AQueueInsertLast c.waiting cur }, ProcessSleep cur m1)

/-- The second half of `CondWait`, the statements after `ProcessSleep`: write
the caller's pid into the owner field of `locks[c->cond_lock]`, then, if the
waiting queue is not empty, remove and wake its first process; restore the
saved interrupt mask and return `SYNC_SUCCESS`.  The result is `none` when
`c->cond_lock` is not an index of the lock table (the C behaviour is
undefined there). -/
def CondWait.resume (cur : Nat) (intrval : Bool) (c : Cond) (locks : List Lock) (m : Machine) :
    Option (Int × Cond × List Lock × Machine) :=
  if c.cond_lock < 0 then none
  else
    match locks[c.cond_lock.toNat]? with
    | none => none
    | some k =>
      let locks1 := locks.set c.cond_lock.toNat { k with pid := (cur : Int) }
      let (c1, m1) :=
        match c.waiting with
        | [] => (c, m)
        | pcb :: rest => ({ c with waiting := rest }, ProcessWakeup pcb m)
      some (SYNC_SUCCESS, c1, locks1, RestoreIntrs intrval m1)

/-- `CondWait` up to its suspension: every call runs the first half and is
suspended at `ProcessSleep`; the second half is run by the woken process. -/
def CondWait (cur : Nat) (c : Cond) (m : Machine) : Ctl × Cond × Machine :=
  (Ctl.slept (CondWait.block cur c m).1, (CondWait.block cur c m).2.1,
    (CondWait.block cur c m).2.2)

/-- `CondSignal`: with interrupts off, if the waiting queue is not empty,
remove and wake its first process, then put the caller at the tail of the same
queue and put it to sleep; restore interrupts and return `SYNC_SUCCESS`.  As
in `LockAcquire`, the only statements after `ProcessSleep` are `RestoreIntrs`
and the return, and the call of a suspended caller is given with them done. -/
def CondSignal (cur : Nat) (c : Cond) (m : Machine) : Int × Cond × Machine :=
  let (intrs, m1) := DisableIntrs m
  let (c1, m2) :=
    match c.waiting with
    | [] => (c, m1)
    | pcb :: rest =>
      ({ c with waiting := AQueueInsertLast rest cur }, ProcessSleep cur (ProcessWakeup pcb m1))
  (SYNC_SUCCESS, c1, RestoreIntrs intrs m2)

/-! ## The tables and the handle interface -/

/-- The static state of `synch.c` together with the surrounding kernel state. -/
structure Kernel where
  sems : List Sem
  locks : List Lock
  conds : List Cond
  m : Machine
deriving DecidableEq

/-- The pool size `MAX_SEMS`: the length of the table `sems`. -/
def Kernel.MAX_SEMS (K : Kernel) : Nat := K.sems.length

/-- The pool size `MAX_LOCKS`: the length of the table `locks`. -/
def Kernel.MAX_LOCKS (K : Kernel) : Nat := K.locks.length

/-- The pool size `MAX_CONDS`: the length of the table `conds`. -/
def Kernel.MAX_CONDS (K : Kernel) : Nat := K.conds.length

/-- The memory of a kernel before `SynchModuleInit`: static storage is zero,
every queue is empty, interrupts are enabled and nobody sleeps. -/
def Kernel.zero (nsems nlocks nconds : Nat) : Kernel :=
  { sems := List.replicate nsems { inuse := 0, count := 0, waiting := [] }
    locks := List.replicate nlocks { inuse := 0, pid := 0, waiting := [] }
    conds := List.replicate nconds { inuse := 0, cond_lock := 0, waiting := [] }
    m := { intrs := true, asleep := [], woken := [] } }

/-- `SynchModuleInit`: clear the `inuse` flag of every slot of the three tables. -/
def SynchModuleInit (K : Kernel) : Int × Kernel :=
  (SYNC_SUCCESS,
    { K with
      sems := K.sems.map fun s => { s with inuse := 0 }
      locks := K.locks.map fun l => { l with inuse := 0 }
      conds := K.conds.map fun c => { c with inuse := 0 } })

/-- The scan loop shared by the three `Create` routines,
`for (i = start; i < MAX; i++) if (table[i].inuse == 0) break;`, run on the
list of `inuse` flags with `fuel` iterations left: the value of `i` when the
loop is left. -/
def scanFree (inuse : List Int) : Nat → Nat → Nat
  | 0, i => i
  | fuel + 1, i => if inuse.getD i 1 = 0 then i else scanFree inuse fuel (i + 1)

/-- `SemCreate`: with interrupts off, take the first slot whose `inuse` is 0
and mark it; with interrupts restored, fail if there was none, otherwise
initialise the slot with `SemInit` and return its index. -/
def SemCreate (count : Int) (K : Kernel) : Int × Kernel :=
  let (intrval, m1) := DisableIntrs K.m
  let sem := scanFree (K.sems.map Sem.inuse) K.MAX_SEMS 0
  let sems1 :=
    match K.sems[sem]? with
    | some s => K.sems.set sem { s with inuse := 1 }
    | none => K.sems
  let m2 := RestoreIntrs intrval m1
  if sem = K.MAX_SEMS then (SYNC_FAIL, { K with sems := sems1, m := m2 })
  else
    match SemInit sems1[sem]? count with
    | (r, some s) =>
      if r ≠ SYNC_SUCCESS then (SYNC_FAIL, { K with sems := sems1.set sem s, m := m2 })
      else ((sem : Int), { K with sems := sems1.set sem s, m := m2 })
    | (_, none) => (SYNC_FAIL, { K with sems := sems1, m := m2 })

/-- `SemHandleWait` up to its return or its suspension: reject a handle that
is negative, too large or not in use; otherwise `SemWait` on the slot. -/
def SemHandleWait (cur : Nat) (sem : Int) (K : Kernel) : Ctl × Kernel :=
  if sem < 0 then (Ctl.ret SYNC_FAIL, K)
  else if sem ≥ (K.MAX_SEMS : Int) then (Ctl.ret SYNC_FAIL, K)
  else if (K.sems[sem.toNat]?.map Sem.inuse).getD 0 = 0 then (Ctl.ret SYNC_FAIL, K)
  else
    match SemWait cur K.sems[sem.toNat]? K.m with
    | (r, some s, m1) => (r, { K with sems := K.sems.set sem.toNat s, m := m1 })
    | (r, none, m1) => (r, { K with m := m1 })

/-- The rest of a `SemHandleWait` call whose caller was suspended: the woken
caller runs the statements of `SemWait` after `ProcessSleep` on the slot, and
the handle routine returns their result.  There is no result for a handle
that names no slot; a suspended call never has such a handle. -/
def SemHandleWait.resume (intrval : Bool) (sem : Int) (K : Kernel) : Option (Int × Kernel) :=
  if sem < 0 then none
  else
    K.sems[sem.toNat]?.map fun s =>
      ((SemWait.resume intrval s K.m).1,
        { K with
          sems := K.sems.set sem.toNat (SemWait.resume intrval s K.m).2.1
          m := (SemWait.resume intrval s K.m).2.2 })

/-- `SemHandleSignal`: reject a handle that is negative, too large or not in
use; otherwise `SemSignal` on the slot. -/
def SemHandleSignal (sem : Int) (K : Kernel) : Int × Kernel :=
  if sem < 0 then (SYNC_FAIL, K)
  else if sem ≥ (K.MAX_SEMS : Int) then (SYNC_FAIL, K)
  else if (K.sems[sem.toNat]?.map Sem.inuse).getD 0 = 0 then (SYNC_FAIL, K)
  else
    match SemSignal K.sems[sem.toNat]? K.m with
    | (r, some s, m1) => (r, { K with sems := K.sems.set sem.toNat s, m := m1 })
    | (r, none, m1) => (r, { K with m := m1 })

/-- `LockCreate`: with interrupts off, take the first slot whose `inuse` is 0
and mark it; with interrupts restored, fail if there was none, otherwise
initialise the slot with `LockInit` and return its index. -/
def LockCreate (K : Kernel) : Int × Kernel :=
  let (intrval, m1) := DisableIntrs K.m
  let l := scanFree (K.locks.map Lock.inuse) K.MAX_LOCKS 0
  let locks1 :=
    match K.locks[l]? with
    | some k => K.locks.set l { k with inuse := 1 }
    | none => K.locks
  let m2 := RestoreIntrs intrval m1
  if l = K.MAX_LOCKS then (SYNC_FAIL, { K with locks := locks1, m := m2 })
  else
    match LockInit locks1[l]? with
    | (r, some k) =>
      if r ≠ SYNC_SUCCESS then (SYNC_FAIL, { K with locks := locks1.set l k, m := m2 })
      else ((l : Int), { K with locks := locks1.set l k, m := m2 })
    | (_, none) => (SYNC_FAIL, { K with locks := locks1, m := m2 })

/-- `LockHandleAcquire`: reject a handle that is negative, too large or not in
use; otherwise `LockAcquire` on the slot. -/
def LockHandleAcquire (cur : Nat) (lock : Int) (K : Kernel) : Int × Kernel :=
  if lock < 0 then (SYNC_FAIL, K)
  else if lock ≥ (K.MAX_LOCKS : Int) then (SYNC_FAIL, K)
  else if (K.locks[lock.toNat]?.map Lock.inuse).getD 0 = 0 then (SYNC_FAIL, K)
  else
    match LockAcquire cur K.locks[lock.toNat]? K.m with
    | (r, some k, m1) => (r, { K with locks := K.locks.set lock.toNat k, m := m1 })
    | (r, none, m1) => (r, { K with m := m1 })

/-- `LockHandleRelease`: reject a handle that is negative, too large or not in
use; otherwise `LockRelease` on the slot. -/
def LockHandleRelease (cur : Nat) (lock : Int) (K : Kernel) : Int × Kernel :=
  if lock < 0 then (SYNC_FAIL, K)
  else if lock ≥ (K.MAX_LOCKS : Int) then (SYNC_FAIL, K)
  else if (K.locks[lock.toNat]?.map Lock.inuse).getD 0 = 0 then (SYNC_FAIL, K)
  else
    match LockRelease cur K.locks[lock.toNat]? K.m with
    | (r, some k, m1) => (r, { K with locks := K.locks.set lock.toNat k, m := m1 })
    | (r, none, m1) => (r, { K with m := m1 })

/-- The read of `locks[lock].pid` in `CondCreate`, which is not range-checked.
For an index of the lock table it gives the owner field of the slot.  For any
other `lock` the read leaves the table, and what it finds is not decided by
`synch.c`: `outside lock` is `some v` when the address read holds the `int`
`v`, and `none` when the address is not part of the memory, so that the
access faults. -/
def readLockPid (outside : Int → Option Int) (lock : Int) (K : Kernel) : Option Int :=
  if lock < 0 then outside lock
  else
    match K.locks[lock.toNat]? with
    | none => outside lock
    | some k => some k.pid

/-- `CondCreate`: return `INVALID_COND` if the owner field read from
`locks[lock]` is not `-1`; otherwise, with interrupts off, take the first
condition slot whose `inuse` is 0 and mark it; with interrupts restored, fail
if there was none, otherwise initialise the slot with `CondInit` and return
its index.  The result is `none` when the read of the owner field faults. -/
def CondCreate (outside : Int → Option Int) (lock : Int) (K : Kernel) : Option (Int × Kernel) :=
  match readLockPid outside lock K with
  | none => none
  | some pid =>
    if pid ≠ -1 then some (INVALID_COND, K)
    else
      let (intrval, m1) := DisableIntrs K.m
      let cond := scanFree (K.conds.map Cond.inuse) K.MAX_CONDS 0
      let conds1 :=
        match K.conds[cond]? with
        | some c => K.conds.set cond { c with inuse := 1 }
        | none => K.conds
      let m2 := RestoreIntrs intrval m1
      if cond = K.MAX_CONDS then some (INVALID_COND, { K with conds := conds1, m := m2 })
      else
        match CondInit conds1[cond]? lock with
        | (r, some c) =>
          if r ≠ SYNC_SUCCESS then
            some (INVALID_COND, { K with conds := conds1.set cond c, m := m2 })
          else some ((cond : Int), { K with conds := conds1.set cond c, m := m2 })
        | (_, none) => some (INVALID_COND, { K with conds := conds1, m := m2 })

/-- `CondHandleWait` up to its return or its suspension: reject a handle
that is negative, too large or not in use; otherwise `CondWait` on the slot. -/
def CondHandleWait (cur : Nat) (c : Int) (K : Kernel) : Ctl × Kernel :=
  if c < 0 then (Ctl.ret SYNC_FAIL, K)
  else if c ≥ (K.MAX_CONDS : Int) then (Ctl.ret SYNC_FAIL, K)
  else
    match K.conds[c.toNat]? with
    | none => (Ctl.ret SYNC_FAIL, K)
    | some cv =>
      if cv.inuse = 0 then (Ctl.ret SYNC_FAIL, K)
      else
        ((CondWait cur cv K.m).1,
          { K with conds := K.conds.set c.toNat (CondWait cur cv K.m).2.1
                   m := (CondWait cur cv K.m).2.2 })

/-- The rest of a `CondHandleWait` call: the woken caller runs the second half
of `CondWait` on the slot, and the handle routine returns its result.  There
is no result for a handle that names no slot, or when the second half has
none. -/
def CondHandleWait.resume (cur : Nat) (intrval : Bool) (c : Int) (K : Kernel) :
    Option (Int × Kernel) :=
  if c < 0 then none
  else
    match K.conds[c.toNat]? with
    | none => none
    | some cv =>
      (CondWait.resume cur intrval cv K.locks K.m).map fun r =>
        (r.1, { K with conds := K.conds.set c.toNat r.2.1, locks := r.2.2.1, m := r.2.2.2 })

/-- `CondHandleSignal`: reject a handle that is negative, too large or not in
use; otherwise `CondSignal` on the slot. -/
def CondHandleSignal (cur : Nat) (c : Int) (K : Kernel) : Int × Kernel :=
  if c < 0 then (SYNC_FAIL, K)
  else if c ≥ (K.MAX_CONDS : Int) then (SYNC_FAIL, K)
  else
    match K.conds[c.toNat]? with
    | none => (SYNC_FAIL, K)
    | some cv =>
      if cv.inuse = 0 then (SYNC_FAIL, K)
      else
        match CondSignal cur cv K.m with
        | (r, cv1, m1) => (r, { K with conds := K.conds.set c.toNat cv1, m := m1 })

/-! ## Runs of several calls -/

/-- The processes of the list call `LockAcquire` on the lock one after the
other, in list order. -/
def acquireAll : List Nat → Option Lock → Machine → Option Lock × Machine
  | [], k, m => (k, m)
  | p :: ps, k, m => acquireAll ps (LockAcquire p k m).2.1 (LockAcquire p k m).2.2

/-- The caller `cur` calls `LockAcquire` on the lock `n` times in a row; the
results of the calls are collected. -/
def acquireTimes (cur : Nat) : Nat → Option Lock → Machine → List Int × Option Lock × Machine
  | 0, k, m => ([], k, m)
  | n + 1, k, m =>
    let r := LockAcquire cur k m
    let rest := acquireTimes cur n r.2.1 r.2.2
    (r.1 :: rest.1, rest.2)

/-- The lock is released `n` times in a row, each time by the process that the
owner field names at that moment; the result of each call and the owner field
after it are collected. -/
def releaseChain : Nat → Option Lock → Machine → List (Int × Int) × Option Lock × Machine
  | 0, k, m => ([], k, m)
  | _ + 1, none, m => ([], none, m)
  | n + 1, some l, m =>
    let r := LockRelease l.pid.toNat (some l) m
    let rest := releaseChain n r.2.1 r.2.2
    ((r.1, (r.2.1.map Lock.pid).getD 0) :: rest.1, rest.2)

/-- One step of a run on a semaphore: a `SemWait` call by a process, a
`SemSignal` call, or a woken process continuing its `SemWait` after
`ProcessSleep`. -/
inductive SemOp where
  | wait (cur : Nat)
  | signal
  | resume (cur : Nat)
deriving DecidableEq

/-- The state of a run on one semaphore: the semaphore and the machine, the
processes suspended in `SemWait` that are still on the queue and those that
have been woken and have not continued yet, each with its saved interrupt
mask, and the numbers of `SemWait` calls that returned without suspension, of
`SemSignal` calls, and of continued `SemWait` calls. -/
structure SemRun where
  s : Sem
  m : Machine
  blocked : List (Nat × Bool)
  pending : List (Nat × Bool)
  nonBlocking : Nat
  signals : Nat
  resumed : Nat
deriving DecidableEq

/-- One step of a run.  A `SemWait` that returns counts as non-blocking, one
that suspends its caller records the caller as blocked; a `SemSignal` moves
the process it wakes, if any, from blocked to pending; a pending process may
continue, running the statements of `SemWait` after `ProcessSleep`.  There is
no step for a process that is not pending to continue. -/
def semStep (r : SemRun) : SemOp → Option SemRun
  | SemOp.wait p =>
    match SemWait p (some r.s) r.m with
    | (Ctl.ret _, some s1, m1) =>
      some { r with s := s1, m := m1, nonBlocking := r.nonBlocking + 1 }
    | (Ctl.slept iv, some s1, m1) =>
      some { r with s := s1, m := m1, blocked := r.blocked ++ [(p, iv)] }
    | (_, none, _) => none
  | SemOp.signal =>
    match SemSignal (some r.s) r.m with
    | (_, some s1, m1) =>
      some
        { r with
          s := s1
          m := m1
          signals := r.signals + 1
          pending :=
            r.pending ++
              (m1.woken.drop r.m.woken.length).map fun p => (p, (r.blocked.lookup p).getD true)
          blocked := r.blocked.filter fun e => e.1 ∉ m1.woken.drop r.m.woken.length }
    | (_, none, _) => none
  | SemOp.resume p =>
    match r.pending.lookup p with
    | none => none
    | some iv =>
      some
        { r with
          s := (SemWait.resume iv r.s r.m).2.1
          m := (SemWait.resume iv r.s r.m).2.2
          pending := r.pending.erase (p, iv)
          resumed := r.resumed + 1 }

/-- The steps of the list, one after the other. -/
def semRun : List SemOp → SemRun → Option SemRun
  | [], r => some r
  | op :: ops, r => (semStep r op).bind (semRun ops)

/-- The start of a run: a semaphore slot initialised by `SemInit` with count
`N`, as `SemCreate(N)` leaves it, nobody suspended and nothing counted. -/
def semStart (s0 : Sem) (N : Int) (m : Machine) : SemRun :=
  { s := ((SemInit (some s0) N).2).getD s0
    m := m
    blocked := []
    pending := []
    nonBlocking := 0
    signals := 0
    resumed := 0 }

/-- The kernel right after `SynchModuleInit`, with the given pool sizes. -/
def Kernel.booted (nsems nlocks nconds : Nat) : Kernel :=
  (SynchModuleInit (Kernel.zero nsems nlocks nconds)).2

/-- One step on a lock or on a condition variable bound to it: a call, or a
woken process continuing its `CondWait` after `ProcessSleep`. -/
inductive LockOp where
  | acquire (cur : Nat)
  | release (cur : Nat)
  | condWait (cur : Nat)
  | condSignal (cur : Nat)
  | condResume (cur : Nat)
deriving DecidableEq

/-- The state of a run of calls on one lock and one condition variable: the
kernel, the processes that hold the lock in the sense of the specification,
the results of the calls that have returned, and the processes suspended in
`CondWait`, each with its saved interrupt mask. -/
structure LockRun where
  K : Kernel
  -- follows the words of the specification, not the code: a process holds
  -- the lock from the moment its acquire succeeds, at once or by hand-off
  -- from a releaser, until its own release succeeds
  holders : List Nat
  rets : List Int
  inWait : List (Nat × Bool)
deriving DecidableEq

/-- One step through the handle interface on lock `l` and condition `c`, made
by a process that is not asleep.  An acquire that returns `SYNC_SUCCESS`
without `ProcessSleep` makes the caller a holder; a release that returns
`SYNC_SUCCESS` ends the caller's holding and makes the process it wakes, if
any, a holder; the condition steps do not touch the holders.  A `CondWait`
call suspends its caller; a suspended caller that has been woken continues
with the second half of `CondWait`.  The result is `none` where a step cannot
be made or has no defined result. -/
def lockStep (l c : Int) (r : LockRun) : LockOp → Option LockRun
  | LockOp.acquire p =>
    if p ∈ r.K.m.asleep then none
    else
      some
        { r with
          K := (LockHandleAcquire p l r.K).2
          holders :=
            if (LockHandleAcquire p l r.K).1 = SYNC_SUCCESS ∧
                (LockHandleAcquire p l r.K).2.m.asleep = r.K.m.asleep then
              r.holders.insert p
            else r.holders
          rets := r.rets ++ [(LockHandleAcquire p l r.K).1] }
  | LockOp.release p =>
    if p ∈ r.K.m.asleep then none
    else
      some
        { r with
          K := (LockHandleRelease p l r.K).2
          holders :=
            if (LockHandleRelease p l r.K).1 = SYNC_SUCCESS then
              ((LockHandleRelease p l r.K).2.m.woken.drop r.K.m.woken.length).foldl
                (fun hs q => hs.insert q) (r.holders.erase p)
            else r.holders
          rets := r.rets ++ [(LockHandleRelease p l r.K).1] }
  | LockOp.condWait p =>
    if p ∈ r.K.m.asleep then none
    else
      match (CondHandleWait p c r.K).1 with
      | Ctl.ret v => some { r with K := (CondHandleWait p c r.K).2, rets := r.rets ++ [v] }
      | Ctl.slept iv =>
        some { r with K := (CondHandleWait p c r.K).2, inWait := r.inWait ++ [(p, iv)] }
  | LockOp.condSignal p =>
    if p ∈ r.K.m.asleep then none
    else
      some
        { r with
          K := (CondHandleSignal p c r.K).2
          rets := r.rets ++ [(CondHandleSignal p c r.K).1] }
  | LockOp.condResume p =>
    if p ∈ r.K.m.asleep then none
    else
      match r.inWait.lookup p with
      | none => none
      | some iv =>
        (CondHandleWait.resume p iv c r.K).map fun a =>
          { r with K := a.2, rets := r.rets ++ [a.1], inWait := r.inWait.erase (p, iv) }

/-- The calls of the list, one after the other. -/
def lockRun (l c : Int) : List LockOp → LockRun → Option LockRun
  | [], r => some r
  | op :: ops, r => (lockStep l c r op).bind (lockRun l c ops)

/-- A freshly booted kernel after `LockCreate` and `CondCreate` on the new
lock: the two handles and the kernel.  The handle is an index of the lock
table, so nothing outside the table is read. -/
def lockCondSetup : Option (Int × Int × Kernel) :=
  (CondCreate (fun _ => none) (LockCreate (Kernel.booted 2 2 2)).1
      (LockCreate (Kernel.booted 2 2 2)).2).map
    fun cc => ((LockCreate (Kernel.booted 2 2 2)).1, cc.1, cc.2)

/-! ## Slot allocation, handles and suspended runs -/

/-- Slot `i` is the lowest free slot of a table with the given `inuse` flags:
its flag is 0 and no slot below it has flag 0. -/
def lowestFree (flags : List Int) (i : Nat) : Prop :=
  flags[i]? = some 0 ∧ ∀ j, j < i → flags[j]? ≠ some 0

instance (flags : List Int) (i : Nat) : Decidable (lowestFree flags i) := by
  unfold lowestFree
  infer_instance

/-- A handle that the handle interface rejects, given the `inuse` flags of the
table: it is negative, or at least the pool size, or the flag of its slot is 0. -/
def badHandle (h : Int) (flags : List Int) : Prop :=
  h < 0 ∨ (flags.length : Int) ≤ h ∨ flags[h.toNat]? = some 0

instance (h : Int) (flags : List Int) : Decidable (badHandle h flags) := by
  unfold badHandle
  infer_instance

/-- A run on condition variable `c` in which a process that calls `CondWait`
is suspended at `ProcessSleep` and executes the statements after it only once
it has been woken, as the specification describes waiting on a condition. -/
structure CondRun where
  K : Kernel
  -- the processes suspended inside CondWait, each with its saved interrupt mask
  inWait : List (Nat × Bool)
  -- the processes that have returned from CondWait, oldest first
  returned : List Nat
deriving DecidableEq

/-- Process `p` calls `CondWait` on slot `c` and is suspended at `ProcessSleep`. -/
def condBlock (c : Nat) (p : Nat) (r : CondRun) : Option CondRun :=
  (r.K.conds[c]?).map fun cv =>
    { K := { r.K with
             conds := r.K.conds.set c (CondWait.block p cv r.K.m).2.1
             m := (CondWait.block p cv r.K.m).2.2 }
      inWait := r.inWait ++ [(p, (CondWait.block p cv r.K.m).1)]
      returned := r.returned }

/-- The processes of the list call `CondWait` on slot `c` one after the other
and are all suspended. -/
def condBlockAll (c : Nat) : List Nat → CondRun → Option CondRun
  | [], r => some r
  | p :: ps, r => (condBlock c p r).bind (condBlockAll c ps)

/-- Process `p` has been woken.  If it is suspended inside `CondWait` it runs
the statements after `ProcessSleep` and returns, and the process woken by
these statements, if any, is resumed in the same way; a woken process that is
not inside `CondWait` (a signaller suspended in `CondSignal`) has nothing left
to do on the condition variable.  The result is `none` when the fuel does not
suffice or a call has no defined result. -/
def condResume (c : Nat) : Nat → Nat → CondRun → Option CondRun
  | 0, _, _ => none
  | fuel + 1, p, r =>
    match r.inWait.lookup p with
    | none => some r
    | some iv =>
      match r.K.conds[c]? with
      | none => none
      | some cv =>
        match CondWait.resume p iv cv r.K.locks r.K.m with
        | none => none
        | some (_, cv1, locks1, m1) =>
          match (m1.woken.drop r.K.m.woken.length).head? with
          | none =>
            some
              { K := { r.K with conds := r.K.conds.set c cv1, locks := locks1, m := m1 }
                inWait := r.inWait.filter fun e => e.1 ≠ p
                returned := r.returned ++ [p] }
          | some q =>
            condResume c fuel q
              { K := { r.K with conds := r.K.conds.set c cv1, locks := locks1, m := m1 }
                inWait := r.inWait.filter fun e => e.1 ≠ p
                returned := r.returned ++ [p] }

/-- Process `s` calls `CondHandleSignal` on slot `c`; then the process it has
woken, if any, is resumed, and so on until no woken process is left. -/
def signalAndResume (c : Nat) (s : Nat) (r : CondRun) : Option CondRun :=
  match ((CondHandleSignal s (c : Int) r.K).2.m.woken.drop r.K.m.woken.length).head? with
  | none => some { r with K := (CondHandleSignal s (c : Int) r.K).2 }
  | some p =>
    condResume c (r.inWait.length + 2) p { r with K := (CondHandleSignal s (c : Int) r.K).2 }

/-- The calls of the list on lock `l`, each made by a process that is not
asleep at that moment; the result is `none` if a sleeping process is asked to
make a call or a call is not a lock call. -/
def lockOnlyRun (l : Int) : List LockOp → Kernel → Option Kernel
  | [], K => some K
  | LockOp.acquire p :: ops, K =>
    if p ∈ K.m.asleep then none else lockOnlyRun l ops (LockHandleAcquire p l K).2
  | LockOp.release p :: ops, K =>
    if p ∈ K.m.asleep then none else lockOnlyRun l ops (LockHandleRelease p l K).2
  | LockOp.condWait _ :: _, _ => none
  | LockOp.condSignal _ :: _, _ => none
  | LockOp.condResume _ :: _, _ => none

/-- The property of a lock and the machine that lock calls by processes that
are awake keep: the waiting queue has no process twice, every process on it is
asleep, the lock has an owner whenever somebody waits, and the owner does not
wait. -/
def LockInv (k : Lock) (m : Machine) : Prop :=
  k.waiting.Nodup ∧ (∀ p ∈ k.waiting, p ∈ m.asleep) ∧ (k.waiting ≠ [] → 0 ≤ k.pid) ∧
    ∀ p ∈ k.waiting, (p : Int) ≠ k.pid

/-- The property that the steps of a run on a semaphore initialised with count
`N` keep, `k` being a bound on the number of steps made: the counter is `N`
plus the signals minus the `SemWait` calls that have decremented it (those
that returned at once and those that have continued), the non-blocking waits
are at most `N` plus the signals, and while a process is on the waiting queue
the counter is at most the number of woken processes that have not continued
yet. -/
def SemInv (N : Int) (k : Nat) (r : SemRun) : Prop :=
  r.s.count = N + r.signals - r.nonBlocking - r.resumed ∧
    r.signals + r.nonBlocking + r.resumed ≤ k ∧
    (r.nonBlocking : Int) ≤ N + r.signals ∧
    (r.s.waiting ≠ [] → r.s.count ≤ r.pending.length)

/-! ## Theorems -/

theorem RestoreIntrs_DisableIntrs (m : Machine) :
    RestoreIntrs (DisableIntrs m).1 (DisableIntrs m).2 = m := by
  cases m; rfl

/-- C2: a `LockRelease` by a process that is not the owner (the lock may also
be free) returns `SYNC_FAIL`, leaves the lock (owner and waiting queue) as it
was, wakes nobody and puts nobody to sleep. -/
theorem LockRelease_not_owner (cur : Nat) (k : Lock) (m : Machine) (h : k.pid ≠ (cur : Int)) :
    (LockRelease cur (some k) m).1 = SYNC_FAIL ∧
    (LockRelease cur (some k) m).2.1 = some k ∧
    (LockRelease cur (some k) m).2.2.woken = m.woken ∧
    (LockRelease cur (some k) m).2.2.asleep = m.asleep := by
  simp [LockRelease, DisableIntrs, h]

theorem LockRelease_not_owner_witness :
    (-1 : Int) ≠ ((4 : Nat) : Int) ∧
    (LockRelease 4 (some ⟨1, -1, [7]⟩) ⟨true, [7], []⟩).1 = SYNC_FAIL ∧
    (LockRelease 4 (some ⟨1, -1, [7]⟩) ⟨true, [7], []⟩).2.1 = some ⟨1, -1, [7]⟩ ∧
    (LockRelease 4 (some ⟨1, -1, [7]⟩) ⟨true, [7], []⟩).2.2.woken = [] ∧
    (LockRelease 4 (some ⟨1, -1, [7]⟩) ⟨true, [7], []⟩).2.2.asleep = [7] :=
  ⟨by decide, LockRelease_not_owner 4 ⟨1, -1, [7]⟩ ⟨true, [7], []⟩ (by decide)⟩

theorem wrap32_id (x : Int) (h1 : -2147483648 ≤ x) (h2 : x < 2147483648) : wrap32 x = x := by
  unfold wrap32
  omega

/-- Counterexample to C10 as stated: after `SemCreate(2147483647)` a
`SemSignal` leaves the count at `-2147483648`, not at `2147483647 + 1`, and on
a semaphore with count 2147483647 and process 5 waiting it wakes nobody. -/
theorem SemSignal_wraps_at_max :
    (SemCreate 2147483647 (Kernel.booted 2 2 2)).1 = 0 ∧
    (SemHandleSignal 0 (SemCreate 2147483647 (Kernel.booted 2 2 2)).2).2.sems[0]? =
      some ⟨1, -2147483648, []⟩ ∧
    SemSignal (some ⟨1, 2147483647, [5]⟩) ⟨true, [5], []⟩ =
      (SYNC_SUCCESS, some ⟨1, -2147483648, [5]⟩, ⟨true, [5], []⟩) ∧
    ¬ ((SemSignal (some ⟨1, 2147483647, [5]⟩) ⟨true, [5], []⟩).2.1.map Sem.count =
        some (2147483647 + 1)) := by
  decide

/-- C10, amended: on a semaphore whose count `c` is a 32-bit `int` below
`2^31 - 1`, with queue `q`, `SemSignal` returns `SYNC_SUCCESS` with count
`c + 1`; if `c + 1 > 0` and `q = h :: t` the queue becomes `t` and `h` is
woken; otherwise the queue and the machine are unchanged.  At
`c = 2^31 - 1` the count becomes `-2^31` and nothing else changes. -/
theorem SemSignal_post (s : Sem) (m : Machine) (hlo : -2147483648 ≤ s.count)
    (hhi : s.count < 2147483648) :
    (SemSignal (some s) m).1 = SYNC_SUCCESS ∧
    (s.count < 2147483647 →
      (SemSignal (some s) m).2.1.map Sem.count = some (s.count + 1) ∧
      (SemSignal (some s) m).2 =
        if s.count + 1 > 0 then
          match s.waiting with
          | [] => (some { s with count := s.count + 1 }, m)
          | h :: t => (some { s with count := s.count + 1, waiting := t }, ProcessWakeup h m)
        else (some { s with count := s.count + 1 }, m)) ∧
    (s.count = 2147483647 →
      SemSignal (some s) m = (SYNC_SUCCESS, some { s with count := -2147483648 }, m)) := by
  cases m
  refine ⟨?_, fun hlt => ?_, fun hmax => ?_⟩
  · by_cases h : wrap32 (s.count + 1) > 0
    · cases hq : s.waiting <;> simp [SemSignal, h, hq]
    · simp [SemSignal, h]
  · have hw : wrap32 (s.count + 1) = s.count + 1 := wrap32_id _ (by omega) (by omega)
    by_cases h : s.count + 1 > 0
    · cases hq : s.waiting <;>
        simp [SemSignal, DisableIntrs, RestoreIntrs, ProcessWakeup, h, hq, hw]
    · simp [SemSignal, DisableIntrs, RestoreIntrs, h, hw]
  · have hw : wrap32 (s.count + 1) = -2147483648 := by
      rw [hmax]; decide
    simp [SemSignal, DisableIntrs, RestoreIntrs, hw]

theorem SemSignal_post_witness :
    ((-2147483648 : Int) ≤ (⟨1, 0, [6, 7]⟩ : Sem).count ∧
      (⟨1, 0, [6, 7]⟩ : Sem).count < 2147483648 ∧ (⟨1, 0, [6, 7]⟩ : Sem).count < 2147483647) ∧
    (SemSignal (some ⟨1, 0, [6, 7]⟩) ⟨true, [6, 7], []⟩).2.1.map Sem.count =
      some ((⟨1, 0, [6, 7]⟩ : Sem).count + 1) :=
  ⟨⟨by decide, by decide, by decide⟩,
    ((SemSignal_post ⟨1, 0, [6, 7]⟩ ⟨true, [6, 7], []⟩ (by decide) (by decide)).2.1
      (by decide)).1⟩

theorem LockAcquire_other (cur : Nat) (k : Lock) (m : Machine)
    (hne : k.pid ≠ (cur : Int)) (hown : 0 ≤ k.pid) :
    LockAcquire cur (some k) m =
      (SYNC_SUCCESS, some { k with waiting := k.waiting ++ [cur] },
        { m with asleep := m.asleep ++ [cur] }) := by
  cases m
  simp [LockAcquire, DisableIntrs, RestoreIntrs, ProcessSleep, AQueueInsertLast, hne, hown]

theorem LockAcquire_owner (cur : Nat) (k : Lock) (m : Machine) (hown : k.pid = (cur : Int)) :
    LockAcquire cur (some k) m = (SYNC_SUCCESS, some k, m) := by
  cases m
  simp [LockAcquire, DisableIntrs, RestoreIntrs, hown]

theorem LockRelease_owner_eq (cur : Nat) (k : Lock) (m : Machine) (hown : k.pid = (cur : Int)) :
    LockRelease cur (some k) m =
      match k.waiting with
      | [] => (SYNC_SUCCESS, some { k with pid := -1 }, m)
      | h :: t => (SYNC_SUCCESS, some { k with pid := (h : Int), waiting := t }, ProcessWakeup h m) := by
  cases m
  cases hq : k.waiting <;>
    simp [LockRelease, DisableIntrs, RestoreIntrs, ProcessWakeup, hown, hq]

theorem acquireAll_blocked (owner : Nat) (ps : List Nat) :
    ∀ (k : Lock) (m : Machine), k.pid = (owner : Int) → (∀ p ∈ ps, p ≠ owner) →
      acquireAll ps (some k) m =
        (some { k with waiting := k.waiting ++ ps }, { m with asleep := m.asleep ++ ps }) := by
  induction ps with
  | nil => intro k m _ _; simp [acquireAll]
  | cons p ps ih =>
    intro k m hown hne
    have hp : k.pid ≠ (p : Int) := by
      rw [hown]; intro h; exact hne p (by simp) (by exact_mod_cast h.symm)
    have h0 : 0 ≤ k.pid := by rw [hown]; exact Int.ofNat_nonneg _
    rw [acquireAll, LockAcquire_other p k m hp h0]
    simp only []
    rw [ih ⟨k.inuse, k.pid, k.waiting ++ [p]⟩ ⟨m.intrs, m.asleep ++ [p], m.woken⟩ hown
      (fun q hq => hne q (by simp [hq]))]
    simp

theorem releaseChain_handoff (q : List Nat) :
    ∀ (owner : Nat) (k : Lock) (m : Machine), k.pid = (owner : Int) → k.waiting = q →
      releaseChain (q.length + 1) (some k) m =
        (q.map (fun p => (SYNC_SUCCESS, (p : Int))) ++ [(SYNC_SUCCESS, -1)],
          some { k with pid := -1, waiting := [] },
          { m with asleep := q.foldl List.erase m.asleep, woken := m.woken ++ q }) := by
  induction q with
  | nil =>
    intro owner k m hown hq
    have ht : k.pid.toNat = owner := by rw [hown]; rfl
    simp only [List.length_nil, Nat.zero_add, releaseChain, ht]
    rw [LockRelease_owner_eq owner k m hown, hq]
    cases m
    simp [releaseChain]
  | cons p q ih =>
    intro owner k m hown hq
    have ht : k.pid.toNat = owner := by rw [hown]; rfl
    rw [List.length_cons, releaseChain]
    simp only [ht]
    rw [LockRelease_owner_eq owner k m hown, hq]
    simp only []
    rw [ih p ⟨k.inuse, (p : Int), q⟩ (ProcessWakeup p m) rfl rfl]
    simp [ProcessWakeup]

/-- C3: a `LockRelease` by the owner returns `SYNC_SUCCESS`; with an empty
waiting queue the owner becomes `-1` and nobody is woken; with waiting queue
`h :: t` the queue becomes `t`, the owner becomes `h`, and `h` and nobody else
is woken.  In particular, when `P1` acquires a fresh lock, `P2` (another
process) then calls `LockAcquire` and is put to sleep on the queue, and `P1`
releases, the owner is `P2`, `P2` is woken, and one more `LockRelease` by `P1`
returns `SYNC_FAIL`. -/
theorem LockRelease_owner (cur : Nat) (k : Lock) (m : Machine) (hown : k.pid = (cur : Int))
    (k0 : Lock) (m0 : Machine) (P1 P2 : Nat) (hne : P1 ≠ P2) :
    ((LockRelease cur (some k) m).1 = SYNC_SUCCESS ∧
      (LockRelease cur (some k) m).2 =
        (match k.waiting with
          | [] => (some { k with pid := -1 }, m)
          | h :: t => (some { k with pid := (h : Int), waiting := t }, ProcessWakeup h m)) ∧
      (LockRelease cur (some k) m).2.2.woken = m.woken ++ k.waiting.head?.toList) ∧
    (let a1 := LockAcquire P1 (LockInit (some k0)).2 m0
     let a2 := LockAcquire P2 a1.2.1 a1.2.2
     let r1 := LockRelease P1 a2.2.1 a2.2.2
     let r2 := LockRelease P1 r1.2.1 r1.2.2
     a1 = (SYNC_SUCCESS, some ⟨k0.inuse, (P1 : Int), []⟩, m0) ∧
     a2 = (SYNC_SUCCESS, some ⟨k0.inuse, (P1 : Int), [P2]⟩,
            { m0 with asleep := m0.asleep ++ [P2] }) ∧
     r1 = (SYNC_SUCCESS, some ⟨k0.inuse, (P2 : Int), []⟩,
            { m0 with asleep := (m0.asleep ++ [P2]).erase P2, woken := m0.woken ++ [P2] }) ∧
     r2.1 = SYNC_FAIL ∧ r2.2.1 = r1.2.1) := by
  refine ⟨?_, ?_⟩
  · rw [LockRelease_owner_eq cur k m hown]
    cases hq : k.waiting <;> simp [ProcessWakeup]
  · have hne' : (P1 : Int) ≠ (P2 : Int) := by exact_mod_cast hne
    have hne2 : (P2 : Int) ≠ (P1 : Int) := fun h => hne' h.symm
    have hneg : ¬ ((-1 : Int) = (P1 : Int)) := by omega
    cases m0
    simp [LockInit, AQueueInit, LockAcquire, LockRelease, DisableIntrs, RestoreIntrs,
      ProcessSleep, ProcessWakeup, AQueueInsertLast, hne', hne2, hneg]

theorem LockRelease_owner_witness :
    ((⟨1, 5, [6, 7]⟩ : Lock).pid = ((5 : Nat) : Int) ∧ (1 : Nat) ≠ 2) ∧
    (LockRelease 5 (some ⟨1, 5, [6, 7]⟩) ⟨true, [6, 7], []⟩).1 = SYNC_SUCCESS ∧
    (LockRelease 5 (some ⟨1, 5, [6, 7]⟩) ⟨true, [6, 7], []⟩).2.2.woken =
      [] ++ (⟨1, 5, [6, 7]⟩ : Lock).waiting.head?.toList :=
  ⟨⟨by decide, by decide⟩,
    (LockRelease_owner 5 ⟨1, 5, [6, 7]⟩ ⟨true, [6, 7], []⟩ (by decide)
      ⟨1, 0, []⟩ ⟨true, [], []⟩ 1 2 (by decide)).1.1,
    (LockRelease_owner 5 ⟨1, 5, [6, 7]⟩ ⟨true, [6, 7], []⟩ (by decide)
      ⟨1, 0, []⟩ ⟨true, [], []⟩ 1 2 (by decide)).1.2.2⟩

/-- C4: lock hand-off is first in, first out.  For a lock owned by `P0` and
processes `P1..Pn`, none of them `P0`, calling `LockAcquire` in that order:
every one of them is put to sleep at the tail of the waiting queue, behind the
processes `q0` that waited already (none when the lock had no waiters), and the
following releases, the first by `P0` and each later one by the owner of the
moment, all return `SYNC_SUCCESS` and set the owner to the members of `q0`,
then to `P1`, `P2`, ..., `Pn` in that order, and at last to `-1`, leaving the
queue empty; each release wakes the new owner. -/
theorem Lock_handoff_fifo (P0 : Nat) (k : Lock) (m : Machine) (ps : List Nat)
    (hown : k.pid = (P0 : Int)) (hne : ∀ p ∈ ps, p ≠ P0) :
    acquireAll ps (some k) m =
      (some { k with waiting := k.waiting ++ ps }, { m with asleep := m.asleep ++ ps }) ∧
    (releaseChain ((k.waiting ++ ps).length + 1) (acquireAll ps (some k) m).1
        (acquireAll ps (some k) m).2).1 =
      (k.waiting ++ ps).map (fun p => (SYNC_SUCCESS, (p : Int))) ++ [(SYNC_SUCCESS, -1)] ∧
    (releaseChain ((k.waiting ++ ps).length + 1) (acquireAll ps (some k) m).1
        (acquireAll ps (some k) m).2).2.1 = some { k with pid := -1, waiting := [] } ∧
    (releaseChain ((k.waiting ++ ps).length + 1) (acquireAll ps (some k) m).1
        (acquireAll ps (some k) m).2).2.2.woken = m.woken ++ (k.waiting ++ ps) := by
  have ha := acquireAll_blocked P0 ps k m hown hne
  rw [ha]
  have hr := releaseChain_handoff (k.waiting ++ ps) P0 ⟨k.inuse, k.pid, k.waiting ++ ps⟩
    ⟨m.intrs, m.asleep ++ ps, m.woken⟩ hown rfl
  simp only [] at hr ⊢
  rw [hr]
  simp

theorem Lock_handoff_fifo_witness :
    ((⟨1, 1, []⟩ : Lock).pid = ((1 : Nat) : Int) ∧ ∀ p ∈ [2, 3, 4], p ≠ 1) ∧
    (releaseChain (((⟨1, 1, []⟩ : Lock).waiting ++ [2, 3, 4]).length + 1)
        (acquireAll [2, 3, 4] (some ⟨1, 1, []⟩) ⟨true, [], []⟩).1
        (acquireAll [2, 3, 4] (some ⟨1, 1, []⟩) ⟨true, [], []⟩).2).1 =
      ((⟨1, 1, []⟩ : Lock).waiting ++ [2, 3, 4]).map (fun p => (SYNC_SUCCESS, (p : Int))) ++
        [(SYNC_SUCCESS, -1)] :=
  ⟨⟨by decide, by decide⟩,
    (Lock_handoff_fifo 1 ⟨1, 1, []⟩ ⟨true, [], []⟩ [2, 3, 4] (by decide) (by decide)).2.1⟩

theorem acquireTimes_owner (cur : Nat) (k : Lock) (m : Machine) (hown : k.pid = (cur : Int)) :
    ∀ n, acquireTimes cur n (some k) m = (List.replicate n SYNC_SUCCESS, some k, m) := by
  intro n
  induction n with
  | zero => rfl
  | succ n ih => simp [acquireTimes, LockAcquire_owner cur k m hown, ih, List.replicate_succ]

/-- C5: `LockAcquire` by the owner returns `SYNC_SUCCESS` and changes neither
the lock (owner, waiting queue) nor the machine (the caller is not put to
sleep); so after any number `n` of such calls one `LockRelease` by the owner
returns `SYNC_SUCCESS` and gives the lock up: the owner becomes `-1` if nobody
waits and the first waiter otherwise. -/
theorem LockAcquire_reentrant (cur : Nat) (k : Lock) (m : Machine) (hown : k.pid = (cur : Int))
    (n : Nat) :
    LockAcquire cur (some k) m = (SYNC_SUCCESS, some k, m) ∧
    acquireTimes cur n (some k) m = (List.replicate n SYNC_SUCCESS, some k, m) ∧
    LockRelease cur (acquireTimes cur n (some k) m).2.1 (acquireTimes cur n (some k) m).2.2 =
      (match k.waiting with
        | [] => (SYNC_SUCCESS, some { k with pid := -1 }, m)
        | h :: t =>
          (SYNC_SUCCESS, some { k with pid := (h : Int), waiting := t }, ProcessWakeup h m)) := by
  refine ⟨LockAcquire_owner cur k m hown, acquireTimes_owner cur k m hown n, ?_⟩
  rw [acquireTimes_owner cur k m hown n]
  exact LockRelease_owner_eq cur k m hown

theorem LockAcquire_reentrant_witness :
    (⟨1, 3, [8]⟩ : Lock).pid = ((3 : Nat) : Int) ∧
    LockAcquire 3 (some ⟨1, 3, [8]⟩) ⟨true, [8], []⟩ = (SYNC_SUCCESS, some ⟨1, 3, [8]⟩, ⟨true, [8], []⟩) :=
  ⟨by decide, (LockAcquire_reentrant 3 ⟨1, 3, [8]⟩ ⟨true, [8], []⟩ (by decide) 2).1⟩

theorem SemWait_cases (cur : Nat) (s : Sem) (m : Machine) :
    (s.count ≤ 0 ∧
      SemWait cur (some s) m =
        (Ctl.slept m.intrs, some { s with waiting := s.waiting ++ [cur] },
          { m with intrs := false, asleep := m.asleep ++ [cur] })) ∨
    (0 < s.count ∧
      SemWait cur (some s) m =
        (Ctl.ret SYNC_SUCCESS, some { s with count := wrap32 (s.count - 1) }, m)) := by
  cases m
  by_cases h : s.count ≤ 0
  · left
    simp [SemWait, DisableIntrs, ProcessSleep, AQueueInsertLast, h]
  · right
    refine ⟨by omega, ?_⟩
    simp [SemWait, SemWait.resume, DisableIntrs, RestoreIntrs, h]

theorem SemSignal_cases (s : Sem) (m : Machine) :
    (∃ h t, 0 < wrap32 (s.count + 1) ∧ s.waiting = h :: t ∧
      SemSignal (some s) m =
        (SYNC_SUCCESS, some { s with count := wrap32 (s.count + 1), waiting := t },
          ProcessWakeup h m)) ∨
    ((¬ 0 < wrap32 (s.count + 1) ∨ s.waiting = []) ∧
      SemSignal (some s) m = (SYNC_SUCCESS, some { s with count := wrap32 (s.count + 1) }, m)) := by
  cases m
  by_cases h : wrap32 (s.count + 1) > 0
  · cases hq : s.waiting with
    | nil =>
      right
      refine ⟨Or.inr rfl, ?_⟩
      simp [SemSignal, DisableIntrs, RestoreIntrs, h, hq]
    | cons a t =>
      left
      refine ⟨a, t, h, rfl, ?_⟩
      simp [SemSignal, DisableIntrs, RestoreIntrs, ProcessWakeup, h, hq]
  · right
    refine ⟨Or.inl h, ?_⟩
    simp [SemSignal, DisableIntrs, RestoreIntrs, h]

theorem lookup_mem {l : List (Nat × Bool)} {p : Nat} {iv : Bool}
    (h : l.lookup p = some iv) : (p, iv) ∈ l := by
  induction l with
  | nil => simp [List.lookup] at h
  | cons e l ih =>
    obtain ⟨q, b⟩ := e
    by_cases hq : p = q
    · subst hq
      simp [List.lookup] at h
      subst h
      exact List.mem_cons_self _ _
    · have hb : (p == q) = false := by simpa using hq
      simp only [List.lookup, hb] at h
      exact List.mem_cons_of_mem _ (ih h)

theorem semStep_inv (N : Int) (k : Nat) (r r1 : SemRun) (op : SemOp) (hN : 0 ≤ N)
    (hb : N + ((k : Int) + 1) < 2147483648) (hinv : SemInv N k r)
    (hs : semStep r op = some r1) : SemInv N (k + 1) r1 := by
  obtain ⟨heq, hk, hnb, hq⟩ := hinv
  have hS : (r.signals : Int) ≤ k := by exact_mod_cast (by omega : r.signals ≤ k)
  have hD : (r.nonBlocking : Int) + r.resumed ≤ k := by
    exact_mod_cast (by omega : r.nonBlocking + r.resumed ≤ k)
  have h0a : (0 : Int) ≤ r.nonBlocking := Int.ofNat_nonneg _
  have h0b : (0 : Int) ≤ r.resumed := Int.ofNat_nonneg _
  have h0c : (0 : Int) ≤ r.signals := Int.ofNat_nonneg _
  cases op with
  | wait p =>
    rcases SemWait_cases p r.s r.m with ⟨hle, he⟩ | ⟨hpos, he⟩
    · simp only [semStep, he, Option.some.injEq] at hs
      subst hs
      refine ⟨heq, by simp only []; omega, hnb, fun _ => ?_⟩
      have : (0 : Int) ≤ (r.pending.length : Int) := Int.ofNat_nonneg _
      exact le_trans hle this
    · have hw : wrap32 (r.s.count - 1) = r.s.count - 1 := wrap32_id _ (by omega) (by omega)
      simp only [semStep, he, Option.some.injEq] at hs
      subst hs
      refine ⟨?_, by simp only []; omega, ?_, fun hne => ?_⟩
      · simp only [hw]; push_cast; omega
      · simp only []; push_cast; omega
      · simp only [hw]
        have := hq hne
        omega
  | signal =>
    have hw : wrap32 (r.s.count + 1) = r.s.count + 1 := wrap32_id _ (by omega) (by omega)
    rcases SemSignal_cases r.s r.m with ⟨h, t, hpos, hwait, he⟩ | ⟨hno, he⟩
    · simp only [semStep, he, Option.some.injEq] at hs
      subst hs
      have hdrop : (ProcessWakeup h r.m).woken.drop r.m.woken.length = [h] := by
        simp [ProcessWakeup]
      refine ⟨?_, by simp only []; omega, ?_, fun _ => ?_⟩
      · simp only [hw]; push_cast; omega
      · simp only []; push_cast; omega
      · have hne : r.s.waiting ≠ [] := by rw [hwait]; exact List.cons_ne_nil _ _
        have := hq hne
        simp only [hw, hdrop, List.map_cons, List.map_nil, List.length_append,
          List.length_cons, List.length_nil]
        push_cast
        omega
    · simp only [semStep, he, Option.some.injEq] at hs
      subst hs
      refine ⟨?_, by simp only []; omega, ?_, fun hne => ?_⟩
      · simp only [hw]; push_cast; omega
      · simp only []; push_cast; omega
      · simp only [hw, List.drop_length, List.map_nil, List.append_nil]
        rcases hno with hno | hno
        · rw [hw] at hno
          have : (0 : Int) ≤ (r.pending.length : Int) := Int.ofNat_nonneg _
          omega
        · exact absurd hno hne
  | resume p =>
    simp only [semStep] at hs
    cases hl : r.pending.lookup p with
    | none => rw [hl] at hs; exact Option.noConfusion hs
    | some iv =>
      rw [hl] at hs
      simp only [Option.some.injEq] at hs
      subst hs
      have hmem := lookup_mem hl
      have hlen : (r.pending.erase (p, iv)).length = r.pending.length - 1 :=
        List.length_erase_of_mem hmem
      have hpos : 0 < r.pending.length := List.length_pos_of_mem hmem
      have hw : wrap32 (r.s.count - 1) = r.s.count - 1 := wrap32_id _ (by omega) (by omega)
      refine ⟨?_, by simp only []; omega, hnb, fun hne => ?_⟩
      · simp only [SemWait.resume, hw]; push_cast; omega
      · have := hq hne
        simp only [SemWait.resume, hw, hlen]
        omega

theorem semRun_inv (N : Int) (hN : 0 ≤ N) (ops : List SemOp) :
    ∀ (k : Nat) (r r1 : SemRun), N + ((k : Int) + ops.length) < 2147483648 → SemInv N k r →
      semRun ops r = some r1 → SemInv N (k + ops.length) r1 := by
  induction ops with
  | nil =>
    intro k r r1 _ hinv hrun
    simp only [semRun, Option.some.injEq] at hrun
    subst hrun
    simpa using hinv
  | cons op ops ih =>
    intro k r r1 hb hinv hrun
    simp only [semRun] at hrun
    cases hstep : semStep r op with
    | none => rw [hstep] at hrun; exact Option.noConfusion hrun
    | some r2 =>
      rw [hstep] at hrun
      simp only [Option.some_bind] at hrun
      simp only [List.length_cons] at hb ⊢
      push_cast at hb
      have h2 := semStep_inv N k r r2 op hN (by omega) hinv hstep
      have h3 := ih (k + 1) r2 r1 (by push_cast; omega) h2 hrun
      have e : k + (ops.length + 1) = k + 1 + ops.length := by omega
      rw [e]
      exact h3

theorem semStart_inv (N : Int) (s0 : Sem) (m : Machine) (hN : 0 ≤ N) :
    SemInv N 0 (semStart s0 N m) := by
  simp [SemInv, semStart, SemInit, AQueueInit, hN]

theorem semRun_take_inv (N : Int) (s0 : Sem) (m : Machine) (ops : List SemOp) (i : Nat)
    (r : SemRun) (hN : 0 ≤ N) (hlen : N + ops.length < 2147483648)
    (hrun : semRun (ops.take i) (semStart s0 N m) = some r) :
    SemInv N (0 + (ops.take i).length) r := by
  refine semRun_inv N hN (ops.take i) 0 _ r ?_ (semStart_inv N s0 m hN) hrun
  have : (ops.take i).length ≤ ops.length := by
    rw [List.length_take]; exact Nat.min_le_right _ _
  have h2 : ((ops.take i).length : Int) ≤ ops.length := by exact_mod_cast this
  push_cast
  omega

/-- Counterexample to C7 as stated: a semaphore initialised with count `-1`,
before any call is made, has seen 0 non-blocking waits, and 0 is not at most
`-1 + 0`. -/
theorem counting_law_fails_negative :
    ¬ (((semStart ⟨1, 0, []⟩ (-1) ⟨true, [], []⟩).nonBlocking : Int) ≤
        (-1 : Int) + ((semStart ⟨1, 0, []⟩ (-1) ⟨true, [], []⟩).signals : Int)) := by
  decide

/-- C7, amended: on a semaphore initialised with a count `N >= 0`, in a run of
`SemWait` calls, `SemSignal` calls and continuations of woken waiters that is
too short for the 32-bit counter to overflow (`N` plus the number of steps
below `2^31`), after any number `i` of the steps the number of `SemWait` calls
so far that returned without suspension (count positive on entry) is at most
`N` plus the number of `SemSignal` calls so far. -/
theorem counting_law (N : Int) (s0 : Sem) (m : Machine) (ops : List SemOp) (i : Nat)
    (r : SemRun) (hN : 0 ≤ N) (hlen : N + ops.length < 2147483648)
    (hrun : semRun (ops.take i) (semStart s0 N m) = some r) :
    (r.nonBlocking : Int) ≤ N + r.signals :=
  (semRun_take_inv N s0 m ops i r hN hlen hrun).2.2.1

theorem counting_law_witness :
    ((0 : Int) ≤ 0 ∧
      (0 : Int) +
          ([SemOp.wait 1, SemOp.signal, SemOp.wait 2, SemOp.resume 1] : List SemOp).length <
        2147483648 ∧
      semRun (([SemOp.wait 1, SemOp.signal, SemOp.wait 2, SemOp.resume 1] : List SemOp).take 3)
          (semStart ⟨1, 0, []⟩ 0 ⟨true, [], []⟩) =
        some
          { s := ⟨1, 0, []⟩
            m := ⟨false, [], [1]⟩
            blocked := []
            pending := [(1, true)]
            nonBlocking := 1
            signals := 1
            resumed := 0 }) ∧
    (((1 : Nat) : Int) ≤ 0 + ((1 : Nat) : Int)) :=
  ⟨⟨by decide, by decide, by decide⟩,
    counting_law 0 ⟨1, 0, []⟩ ⟨true, [], []⟩
      [SemOp.wait 1, SemOp.signal, SemOp.wait 2, SemOp.resume 1] 3
      { s := ⟨1, 0, []⟩
        m := ⟨false, [], [1]⟩
        blocked := []
        pending := [(1, true)]
        nonBlocking := 1
        signals := 1
        resumed := 0 }
      (by decide) (by decide) (by decide)⟩

/-- C1 at a failing input, processes 1, 2, 3 on a fresh lock (handle 0) with a
condition variable (handle 0) created on it: process 1 acquires the lock;
process 2, which does not own it, calls `CondWait` and is suspended; process
1, the holder, calls `CondSignal`, which wakes 2; process 2 continues, and
the statements of `CondWait` after `ProcessSleep` write 2 into the owner
field; process 2 releases with success; process 3 acquires at once.  Every
call returns `SYNC_SUCCESS`, process 1 has never released, and processes 1
and 3 both hold the lock. -/
theorem lock_two_holders :
    lockCondSetup.map (fun s => (s.1, s.2.1)) = some (0, 0) ∧
    (lockCondSetup.bind fun s =>
        lockRun s.1 s.2.1
          [LockOp.acquire 1, LockOp.condWait 2, LockOp.condSignal 1, LockOp.condResume 2]
          ⟨s.2.2, [], [], []⟩).map
        (fun r => (r.K.locks[0]?.map Lock.pid, r.holders)) = some (some 2, [1]) ∧
    (lockCondSetup.bind fun s =>
        lockRun s.1 s.2.1
          [LockOp.acquire 1, LockOp.condWait 2, LockOp.condSignal 1, LockOp.condResume 2,
            LockOp.release 2, LockOp.acquire 3]
          ⟨s.2.2, [], [], []⟩) =
      some
        { K :=
            { sems := [⟨0, 0, []⟩, ⟨0, 0, []⟩]
              locks := [⟨1, 3, []⟩, ⟨0, 0, []⟩]
              conds := [⟨1, 0, []⟩, ⟨0, 0, []⟩]
              m := ⟨true, [], [2, 1]⟩ }
          holders := [3, 1]
          rets := [SYNC_SUCCESS, SYNC_SUCCESS, SYNC_SUCCESS, SYNC_SUCCESS, SYNC_SUCCESS]
          inWait := [] } := by
  refine ⟨?_, ?_, ?_⟩ <;> decide

/-! ## Theorems on the tables, the handle interface and condition variables -/

theorem scanFree_spec (flags : List Int) :
    ∀ fuel i, i + fuel = flags.length →
      i ≤ scanFree flags fuel i ∧ scanFree flags fuel i ≤ flags.length ∧
      (∀ j, i ≤ j → j < scanFree flags fuel i → flags.getD j 1 ≠ 0) ∧
      (scanFree flags fuel i < flags.length → flags.getD (scanFree flags fuel i) 1 = 0) := by
  intro fuel
  induction fuel with
  | zero =>
    intro i h
    simp only [scanFree]
    refine ⟨le_refl _, by omega, fun j h1 h2 => by omega, fun h3 => by omega⟩
  | succ fuel ih =>
    intro i h
    simp only [scanFree]
    by_cases h0 : flags.getD i 1 = 0
    · rw [if_pos h0]
      exact ⟨le_refl _, by omega, fun j h1 h2 => by omega, fun _ => h0⟩
    · rw [if_neg h0]
      obtain ⟨a, b, c, d⟩ := ih (i + 1) (by omega)
      refine ⟨by omega, b, fun j h1 h2 => ?_, d⟩
      by_cases hj : j = i
      · subst hj; exact h0
      · exact c j (by omega) h2

theorem Kernel_eta (K : Kernel) :
    ({ K with m := RestoreIntrs (DisableIntrs K.m).1 (DisableIntrs K.m).2 } : Kernel) = K := by
  rw [RestoreIntrs_DisableIntrs]

theorem SemCreate_eq (n : Int) (K : Kernel) :
    SemCreate n K =
      match K.sems[scanFree (K.sems.map Sem.inuse) K.sems.length 0]? with
      | none => (SYNC_FAIL, K)
      | some _ =>
        ((scanFree (K.sems.map Sem.inuse) K.sems.length 0 : Nat),
          { K with
            sems := K.sems.set (scanFree (K.sems.map Sem.inuse) K.sems.length 0) ⟨1, n, []⟩ }) := by
  obtain ⟨_, hle, _, _⟩ := scanFree_spec (K.sems.map Sem.inuse) K.sems.length 0 (by simp)
  rw [List.length_map] at hle
  generalize hi : scanFree (K.sems.map Sem.inuse) K.sems.length 0 = i at *
  have hm := RestoreIntrs_DisableIntrs K.m
  rcases Nat.lt_or_ge i K.sems.length with hlt | hge
  · have hne : i ≠ K.sems.length := by omega
    simp [SemCreate, Kernel.MAX_SEMS, hi, hlt, hne, SemInit, AQueueInit, SYNC_SUCCESS, hm]
  · have he : i = K.sems.length := by omega
    subst he
    simp [SemCreate, Kernel.MAX_SEMS, hi, hm]

theorem scanFree_lowest (flags : List Int) (h : scanFree flags flags.length 0 < flags.length) :
    lowestFree flags (scanFree flags flags.length 0) := by
  obtain ⟨_, _, c, d⟩ := scanFree_spec flags flags.length 0 (by simp)
  have hd := d h
  refine ⟨?_, fun j hj hcon => ?_⟩
  · rw [List.getD_eq_getElem?_getD, List.getElem?_eq_getElem h] at hd
    rw [List.getElem?_eq_getElem h]
    simpa using hd
  · have := c j (Nat.zero_le _) hj
    rw [List.getD_eq_getElem?_getD, hcon] at this
    exact this rfl

theorem scanFree_full (flags : List Int) :
    scanFree flags flags.length 0 = flags.length ↔ ∀ f ∈ flags, f ≠ 0 := by
  obtain ⟨_, b, c, d⟩ := scanFree_spec flags flags.length 0 (by simp)
  constructor
  · intro h f hf h0
    obtain ⟨j, hj, rfl⟩ := List.getElem_of_mem hf
    have := c j (Nat.zero_le _) (by omega)
    rw [List.getD_eq_getElem?_getD, List.getElem?_eq_getElem hj] at this
    exact this (by simpa using h0)
  · intro h
    by_contra hne
    have hlt : scanFree flags flags.length 0 < flags.length := by omega
    have hd := d hlt
    rw [List.getD_eq_getElem?_getD, List.getElem?_eq_getElem hlt] at hd
    exact h _ (List.getElem_mem hlt) (by simpa using hd)

theorem LockCreate_eq (K : Kernel) :
    LockCreate K =
      match K.locks[scanFree (K.locks.map Lock.inuse) K.locks.length 0]? with
      | none => (SYNC_FAIL, K)
      | some _ =>
        ((scanFree (K.locks.map Lock.inuse) K.locks.length 0 : Nat),
          { K with
            locks := K.locks.set (scanFree (K.locks.map Lock.inuse) K.locks.length 0) ⟨1, -1, []⟩ }) := by
  obtain ⟨_, hle, _, _⟩ := scanFree_spec (K.locks.map Lock.inuse) K.locks.length 0 (by simp)
  rw [List.length_map] at hle
  generalize hi : scanFree (K.locks.map Lock.inuse) K.locks.length 0 = i at *
  have hm := RestoreIntrs_DisableIntrs K.m
  rcases Nat.lt_or_ge i K.locks.length with hlt | hge
  · have hne : i ≠ K.locks.length := by omega
    simp [LockCreate, Kernel.MAX_LOCKS, hi, hlt, hne, LockInit, AQueueInit, SYNC_SUCCESS, hm]
  · have he : i = K.locks.length := by omega
    subst he
    simp [LockCreate, Kernel.MAX_LOCKS, hi, hm]

theorem create_cases (flags : List Int) :
    (scanFree flags flags.length 0 = flags.length ∧ ∀ f ∈ flags, f ≠ 0) ∨
    (scanFree flags flags.length 0 < flags.length ∧
      lowestFree flags (scanFree flags flags.length 0) ∧ ∃ f ∈ flags, f = 0) := by
  obtain ⟨_, b, _, _⟩ := scanFree_spec flags flags.length 0 (by simp)
  rcases Nat.lt_or_ge (scanFree flags flags.length 0) flags.length with hlt | hge
  · right
    have hl := scanFree_lowest flags hlt
    refine ⟨hlt, hl, 0, ?_, rfl⟩
    exact List.getElem?_mem hl.1
  · left
    have he : scanFree flags flags.length 0 = flags.length := by omega
    exact ⟨he, (scanFree_full flags).1 he⟩

theorem SemCreate_cases (n : Int) (K : Kernel) :
    (SemCreate n K = (SYNC_FAIL, K) ∧ ∀ s ∈ K.sems, s.inuse ≠ 0) ∨
    (∃ i : Nat, lowestFree (K.sems.map Sem.inuse) i ∧ (∃ s ∈ K.sems, s.inuse = 0) ∧
      SemCreate n K = ((i : Int), { K with sems := K.sems.set i ⟨1, n, []⟩ })) := by
  have hlen : (K.sems.map Sem.inuse).length = K.sems.length := List.length_map _ _
  rcases create_cases (K.sems.map Sem.inuse) with ⟨he, hall⟩ | ⟨hlt, hlow, f, hf, hf0⟩
  · left
    rw [hlen] at he
    refine ⟨?_, fun s hs => hall _ (List.mem_map_of_mem _ hs)⟩
    rw [SemCreate_eq, he]
    simp
  · right
    rw [hlen] at hlt hlow
    refine ⟨_, hlow, ?_, ?_⟩
    · obtain ⟨s, hs, rfl⟩ := List.mem_map.1 hf
      exact ⟨s, hs, hf0⟩
    · rw [SemCreate_eq, List.getElem?_eq_getElem hlt]

theorem LockCreate_cases (K : Kernel) :
    (LockCreate K = (SYNC_FAIL, K) ∧ ∀ k ∈ K.locks, k.inuse ≠ 0) ∨
    (∃ i : Nat, lowestFree (K.locks.map Lock.inuse) i ∧ (∃ k ∈ K.locks, k.inuse = 0) ∧
      LockCreate K = ((i : Int), { K with locks := K.locks.set i ⟨1, -1, []⟩ })) := by
  have hlen : (K.locks.map Lock.inuse).length = K.locks.length := List.length_map _ _
  rcases create_cases (K.locks.map Lock.inuse) with ⟨he, hall⟩ | ⟨hlt, hlow, f, hf, hf0⟩
  · left
    rw [hlen] at he
    refine ⟨?_, fun s hs => hall _ (List.mem_map_of_mem _ hs)⟩
    rw [LockCreate_eq, he]
    simp
  · right
    rw [hlen] at hlt hlow
    refine ⟨_, hlow, ?_, ?_⟩
    · obtain ⟨s, hs, rfl⟩ := List.mem_map.1 hf
      exact ⟨s, hs, hf0⟩
    · rw [LockCreate_eq, List.getElem?_eq_getElem hlt]

theorem ofNat_ne_SYNC_FAIL (i : Nat) : ((i : Int) = SYNC_FAIL) = False := by
  simp only [SYNC_FAIL, eq_iff_iff, iff_false]
  omega

/-- C12: `SemCreate(n)` returns `SYNC_FAIL` exactly when no slot of the
semaphore table has `inuse = 0` (with flags that are 0 or 1: when every slot
has `inuse = 1`), and then changes nothing; otherwise it returns the lowest
index `i` with `inuse = 0` and the table differs in slot `i` only, which has
`inuse = 1`, count `n` and an empty waiting queue.  `LockCreate` does the same
on the lock table, the slot getting owner `-1` and an empty queue. -/
theorem Create_allocation (n : Int) (K : Kernel) :
    (((SemCreate n K).1 = SYNC_FAIL ↔ ∀ s ∈ K.sems, s.inuse ≠ 0) ∧
      ((∀ s ∈ K.sems, s.inuse = 0 ∨ s.inuse = 1) →
        ((SemCreate n K).1 = SYNC_FAIL ↔ ∀ s ∈ K.sems, s.inuse = 1)) ∧
      ((SemCreate n K).1 = SYNC_FAIL → SemCreate n K = (SYNC_FAIL, K)) ∧
      ((SemCreate n K).1 ≠ SYNC_FAIL →
        ∃ i : Nat, lowestFree (K.sems.map Sem.inuse) i ∧
          SemCreate n K = ((i : Int), { K with sems := K.sems.set i ⟨1, n, []⟩ }))) ∧
    (((LockCreate K).1 = SYNC_FAIL ↔ ∀ k ∈ K.locks, k.inuse ≠ 0) ∧
      ((∀ k ∈ K.locks, k.inuse = 0 ∨ k.inuse = 1) →
        ((LockCreate K).1 = SYNC_FAIL ↔ ∀ k ∈ K.locks, k.inuse = 1)) ∧
      ((LockCreate K).1 = SYNC_FAIL → LockCreate K = (SYNC_FAIL, K)) ∧
      ((LockCreate K).1 ≠ SYNC_FAIL →
        ∃ i : Nat, lowestFree (K.locks.map Lock.inuse) i ∧
          LockCreate K = ((i : Int), { K with locks := K.locks.set i ⟨1, -1, []⟩ }))) := by
  constructor
  · have hiff : (SemCreate n K).1 = SYNC_FAIL ↔ ∀ s ∈ K.sems, s.inuse ≠ 0 := by
      rcases SemCreate_cases n K with ⟨he, hall⟩ | ⟨i, _, ⟨s, hs, hs0⟩, he⟩
      · rw [he]; exact ⟨fun _ => hall, fun _ => rfl⟩
      · rw [he]
        simp only [ofNat_ne_SYNC_FAIL, false_iff]
        exact fun h => h s hs hs0
    refine ⟨hiff, fun hflags => ?_, fun hfail => ?_, fun hok => ?_⟩
    · rw [hiff]
      constructor
      · intro h s hs
        rcases hflags s hs with h0 | h1
        · exact absurd h0 (h s hs)
        · exact h1
      · intro h s hs
        rw [h s hs]; decide
    · rcases SemCreate_cases n K with ⟨he, _⟩ | ⟨i, _, _, he⟩
      · exact he
      · rw [he] at hfail
        simp only [ofNat_ne_SYNC_FAIL] at hfail
    · rcases SemCreate_cases n K with ⟨he, _⟩ | ⟨i, hlow, _, he⟩
      · rw [he] at hok; exact absurd rfl hok
      · exact ⟨i, hlow, he⟩
  · have hiff : (LockCreate K).1 = SYNC_FAIL ↔ ∀ k ∈ K.locks, k.inuse ≠ 0 := by
      rcases LockCreate_cases K with ⟨he, hall⟩ | ⟨i, _, ⟨s, hs, hs0⟩, he⟩
      · rw [he]; exact ⟨fun _ => hall, fun _ => rfl⟩
      · rw [he]
        simp only [ofNat_ne_SYNC_FAIL, false_iff]
        exact fun h => h s hs hs0
    refine ⟨hiff, fun hflags => ?_, fun hfail => ?_, fun hok => ?_⟩
    · rw [hiff]
      constructor
      · intro h s hs
        rcases hflags s hs with h0 | h1
        · exact absurd h0 (h s hs)
        · exact h1
      · intro h s hs
        rw [h s hs]; decide
    · rcases LockCreate_cases K with ⟨he, _⟩ | ⟨i, _, _, he⟩
      · exact he
      · rw [he] at hfail
        simp only [ofNat_ne_SYNC_FAIL] at hfail
    · rcases LockCreate_cases K with ⟨he, _⟩ | ⟨i, hlow, _, he⟩
      · rw [he] at hok; exact absurd rfl hok
      · exact ⟨i, hlow, he⟩

theorem Create_allocation_witness :
    (SemCreate 5 (Kernel.booted 2 2 2)).1 ≠ SYNC_FAIL ∧
    ∃ i : Nat, lowestFree ((Kernel.booted 2 2 2).sems.map Sem.inuse) i ∧
      SemCreate 5 (Kernel.booted 2 2 2) =
        ((i : Int), { Kernel.booted 2 2 2 with sems := (Kernel.booted 2 2 2).sems.set i ⟨1, 5, []⟩ }) :=
  ⟨by decide, (Create_allocation 5 (Kernel.booted 2 2 2)).1.2.2.2 (by decide)⟩

theorem LockAcquire_some (cur : Nat) (k : Lock) (m : Machine) :
    ∃ k1 m1, LockAcquire cur (some k) m = (SYNC_SUCCESS, some k1, m1) := by
  by_cases h : k.pid = (cur : Int)
  · simp [LockAcquire, h]
  · by_cases h0 : k.pid ≥ 0 <;> simp [LockAcquire, h, h0]

theorem LockRelease_some (cur : Nat) (k : Lock) (m : Machine) :
    ∃ r k1 m1, LockRelease cur (some k) m = (r, some k1, m1) := by
  by_cases h : k.pid = (cur : Int)
  · cases hq : k.waiting <;> simp [LockRelease, h, hq]
  · simp [LockRelease, h]

theorem goodHandle_slot {α : Type} (f : α → Int) (h : Int) (tbl : List α)
    (hgood : ¬ badHandle h (tbl.map f)) :
    ¬ h < 0 ∧ ¬ h ≥ (tbl.length : Int) ∧ ∃ s, tbl[h.toNat]? = some s ∧ f s ≠ 0 := by
  simp only [badHandle, not_or, List.length_map, not_le, not_lt] at hgood
  obtain ⟨h0, h1, h2⟩ := hgood
  have hlt : h.toNat < tbl.length := by omega
  refine ⟨by omega, by omega, tbl[h.toNat], List.getElem?_eq_getElem hlt, fun hf => h2 ?_⟩
  rw [List.getElem?_map, List.getElem?_eq_getElem hlt]
  simp [hf]

theorem badHandle_slot {α : Type} (f : α → Int) (h : Int) (tbl : List α)
    (hbad : badHandle h (tbl.map f)) :
    h < 0 ∨ h ≥ (tbl.length : Int) ∨ ∃ s, tbl[h.toNat]? = some s ∧ f s = 0 := by
  rcases hbad with h0 | h1 | h2
  · exact Or.inl h0
  · rw [List.length_map] at h1; exact Or.inr (Or.inl h1)
  · right; right
    rw [List.getElem?_map] at h2
    cases hs : tbl[h.toNat]? with
    | none => rw [hs] at h2; simp at h2
    | some s => rw [hs] at h2; exact ⟨s, rfl, by simpa using h2⟩

theorem SemWait_some (cur : Nat) (s : Sem) (m : Machine) :
    ∃ r s1 m1, SemWait cur (some s) m = (r, some s1, m1) := by
  rcases SemWait_cases cur s m with ⟨_, he⟩ | ⟨_, he⟩ <;> exact ⟨_, _, _, he⟩

theorem SemSignal_some (s : Sem) (m : Machine) :
    ∃ r s1 m1, SemSignal (some s) m = (r, some s1, m1) := by
  rcases SemSignal_cases s m with ⟨_, _, _, _, he⟩ | ⟨_, he⟩ <;> exact ⟨_, _, _, he⟩

/-- C11: each of the six handle routines returns `SYNC_FAIL` and leaves the
whole kernel state unchanged when the handle is negative, at least the pool
size, or names a slot whose `inuse` flag is 0; for every other handle it does
what the pointer routine does on slot `h`: it returns or suspends the caller
as that routine does, and the state changes as that routine changes the slot
and the machine, every other slot staying as it was.  The same holds for the
statements that a suspended caller of `SemWait` or `CondWait` runs once it is
woken (for `CondWait` they also change the lock table). -/
theorem Handle_validation (cur : Nat) (h : Int) (K : Kernel) (iv : Bool) :
    (badHandle h (K.sems.map Sem.inuse) →
      SemHandleWait cur h K = (Ctl.ret SYNC_FAIL, K) ∧ SemHandleSignal h K = (SYNC_FAIL, K)) ∧
    (badHandle h (K.locks.map Lock.inuse) →
      LockHandleAcquire cur h K = (SYNC_FAIL, K) ∧ LockHandleRelease cur h K = (SYNC_FAIL, K)) ∧
    (badHandle h (K.conds.map Cond.inuse) →
      CondHandleWait cur h K = (Ctl.ret SYNC_FAIL, K) ∧ CondHandleSignal cur h K = (SYNC_FAIL, K)) ∧
    (¬ badHandle h (K.sems.map Sem.inuse) →
      ∃ s, K.sems[h.toNat]? = some s ∧
        (∃ r s1 m1, SemWait cur (some s) K.m = (r, some s1, m1) ∧
          SemHandleWait cur h K = (r, { K with sems := K.sems.set h.toNat s1, m := m1 })) ∧
        (∃ r s1 m1, SemSignal (some s) K.m = (r, some s1, m1) ∧
          SemHandleSignal h K = (r, { K with sems := K.sems.set h.toNat s1, m := m1 })) ∧
        SemHandleWait.resume iv h K =
          some ((SemWait.resume iv s K.m).1,
            { K with sems := K.sems.set h.toNat (SemWait.resume iv s K.m).2.1
                     m := (SemWait.resume iv s K.m).2.2 })) ∧
    (¬ badHandle h (K.locks.map Lock.inuse) →
      ∃ k, K.locks[h.toNat]? = some k ∧
        (∃ r k1 m1, LockAcquire cur (some k) K.m = (r, some k1, m1) ∧
          LockHandleAcquire cur h K = (r, { K with locks := K.locks.set h.toNat k1, m := m1 })) ∧
        (∃ r k1 m1, LockRelease cur (some k) K.m = (r, some k1, m1) ∧
          LockHandleRelease cur h K = (r, { K with locks := K.locks.set h.toNat k1, m := m1 }))) ∧
    (¬ badHandle h (K.conds.map Cond.inuse) →
      ∃ c, K.conds[h.toNat]? = some c ∧
        CondHandleWait cur h K =
          ((CondWait cur c K.m).1,
            { K with conds := K.conds.set h.toNat (CondWait cur c K.m).2.1
                     m := (CondWait cur c K.m).2.2 }) ∧
        CondHandleWait.resume cur iv h K =
          (CondWait.resume cur iv c K.locks K.m).map (fun r =>
            (r.1, { K with conds := K.conds.set h.toNat r.2.1, locks := r.2.2.1, m := r.2.2.2 })) ∧
        CondHandleSignal cur h K =
          ((CondSignal cur c K.m).1,
            { K with conds := K.conds.set h.toNat (CondSignal cur c K.m).2.1,
                     m := (CondSignal cur c K.m).2.2 })) := by
  refine ⟨fun hb => ?_, fun hb => ?_, fun hb => ?_, fun hg => ?_, fun hg => ?_, fun hg => ?_⟩
  · rcases badHandle_slot Sem.inuse h K.sems hb with h0 | h1 | ⟨s, hs, hf⟩
    · simp [SemHandleWait, SemHandleSignal, h0]
    · simp [SemHandleWait, SemHandleSignal, Kernel.MAX_SEMS, h1]
    · simp [SemHandleWait, SemHandleSignal, hs, hf]
  · rcases badHandle_slot Lock.inuse h K.locks hb with h0 | h1 | ⟨s, hs, hf⟩
    · simp [LockHandleAcquire, LockHandleRelease, h0]
    · simp [LockHandleAcquire, LockHandleRelease, Kernel.MAX_LOCKS, h1]
    · simp [LockHandleAcquire, LockHandleRelease, hs, hf]
  · rcases badHandle_slot Cond.inuse h K.conds hb with h0 | h1 | ⟨s, hs, hf⟩
    · simp [CondHandleWait, CondHandleSignal, h0]
    · simp [CondHandleWait, CondHandleSignal, Kernel.MAX_CONDS, h1]
    · simp [CondHandleWait, CondHandleSignal, hs, hf]
  · obtain ⟨h0, h1, s, hs, hf⟩ := goodHandle_slot Sem.inuse h K.sems hg
    refine ⟨s, hs, ?_, ?_, ?_⟩
    · obtain ⟨r, s1, m1, he⟩ := SemWait_some cur s K.m
      refine ⟨r, s1, m1, he, ?_⟩
      simp only [SemHandleWait, Kernel.MAX_SEMS, if_neg h0, if_neg h1, hs, Option.map_some',
        Option.getD_some, if_neg hf, he]
    · obtain ⟨r, s1, m1, he⟩ := SemSignal_some s K.m
      refine ⟨r, s1, m1, he, ?_⟩
      simp only [SemHandleSignal, Kernel.MAX_SEMS, if_neg h0, if_neg h1, hs, Option.map_some',
        Option.getD_some, if_neg hf, he]
    · simp only [SemHandleWait.resume, if_neg h0, hs, Option.map_some']
  · obtain ⟨h0, h1, s, hs, hf⟩ := goodHandle_slot Lock.inuse h K.locks hg
    refine ⟨s, hs, ?_, ?_⟩
    · obtain ⟨s1, m1, he⟩ := LockAcquire_some cur s K.m
      refine ⟨_, s1, m1, he, ?_⟩
      simp only [LockHandleAcquire, Kernel.MAX_LOCKS, if_neg h0, if_neg h1, hs, Option.map_some',
        Option.getD_some, if_neg hf, he]
    · obtain ⟨r, s1, m1, he⟩ := LockRelease_some cur s K.m
      refine ⟨_, s1, m1, he, ?_⟩
      simp only [LockHandleRelease, Kernel.MAX_LOCKS, if_neg h0, if_neg h1, hs, Option.map_some',
        Option.getD_some, if_neg hf, he]
  · obtain ⟨h0, h1, s, hs, hf⟩ := goodHandle_slot Cond.inuse h K.conds hg
    refine ⟨s, hs, ?_, ?_, ?_⟩
    · simp only [CondHandleWait, Kernel.MAX_CONDS, if_neg h0, if_neg h1, hs, if_neg hf]
    · simp only [CondHandleWait.resume, if_neg h0, hs]
    · simp only [CondHandleSignal, Kernel.MAX_CONDS, if_neg h0, if_neg h1, hs, if_neg hf]

theorem Handle_validation_witness :
    badHandle 1 ((SemCreate 1 (Kernel.booted 2 2 2)).2.sems.map Sem.inuse) ∧
    SemHandleWait 3 1 (SemCreate 1 (Kernel.booted 2 2 2)).2 =
      (Ctl.ret SYNC_FAIL, (SemCreate 1 (Kernel.booted 2 2 2)).2) ∧
    SemHandleSignal 1 (SemCreate 1 (Kernel.booted 2 2 2)).2 =
      (SYNC_FAIL, (SemCreate 1 (Kernel.booted 2 2 2)).2) :=
  ⟨by decide, (Handle_validation 3 1 (SemCreate 1 (Kernel.booted 2 2 2)).2 true).1 (by decide)⟩

theorem CondCreate_owned (outside : Int → Option Int) (l : Int) (K : Kernel) (k : Lock)
    (hl : 0 ≤ l)
    (hk : K.locks[l.toNat]? = some k) (hp : k.pid ≠ -1) :
    CondCreate outside l K = some (INVALID_COND, K) := by
  have h0 : ¬ l < 0 := by omega
  simp [CondCreate, readLockPid, h0, hk, hp]

theorem CondCreate_free (outside : Int → Option Int) (l : Int) (K : Kernel) (k : Lock)
    (hl : 0 ≤ l)
    (hk : K.locks[l.toNat]? = some k) (hp : k.pid = -1) :
    CondCreate outside l K =
      match K.conds[scanFree (K.conds.map Cond.inuse) K.conds.length 0]? with
      | none => some (INVALID_COND, K)
      | some _ =>
        some ((scanFree (K.conds.map Cond.inuse) K.conds.length 0 : Nat),
          { K with
            conds := K.conds.set (scanFree (K.conds.map Cond.inuse) K.conds.length 0) ⟨1, l, []⟩ }) := by
  have h0 : ¬ l < 0 := by omega
  obtain ⟨_, hle, _, _⟩ := scanFree_spec (K.conds.map Cond.inuse) K.conds.length 0 (by simp)
  rw [List.length_map] at hle
  generalize hi : scanFree (K.conds.map Cond.inuse) K.conds.length 0 = i at *
  have hm := RestoreIntrs_DisableIntrs K.m
  rcases Nat.lt_or_ge i K.conds.length with hlt | hge
  · have hne : i ≠ K.conds.length := by omega
    simp [CondCreate, readLockPid, h0, hk, hp, Kernel.MAX_CONDS, hi, hlt, hne, CondInit, AQueueInit,
      SYNC_SUCCESS, hm]
  · have he : i = K.conds.length := by omega
    subst he
    simp [CondCreate, readLockPid, h0, hk, hp, Kernel.MAX_CONDS, hi, hm]

theorem CondCreate_free_cases (outside : Int → Option Int) (l : Int) (K : Kernel) (k : Lock)
    (hl : 0 ≤ l)
    (hk : K.locks[l.toNat]? = some k) (hp : k.pid = -1) :
    (CondCreate outside l K = some (INVALID_COND, K) ∧ ∀ c ∈ K.conds, c.inuse ≠ 0) ∨
    (∃ i : Nat, lowestFree (K.conds.map Cond.inuse) i ∧
      CondCreate outside l K = some ((i : Int), { K with conds := K.conds.set i ⟨1, l, []⟩ })) := by
  have hlen : (K.conds.map Cond.inuse).length = K.conds.length := List.length_map _ _
  rcases create_cases (K.conds.map Cond.inuse) with ⟨he, hall⟩ | ⟨hlt, hlow, _⟩
  · left
    rw [hlen] at he
    refine ⟨?_, fun s hs => hall _ (List.mem_map_of_mem _ hs)⟩
    rw [CondCreate_free outside l K k hl hk hp, he]
    simp
  · right
    rw [hlen] at hlt hlow
    refine ⟨_, hlow, ?_⟩
    rw [CondCreate_free outside l K k hl hk hp, List.getElem?_eq_getElem hlt]

theorem lowestFree_lt {flags : List Int} {i : Nat} (h : lowestFree flags i) : i < flags.length := by
  by_contra hge
  have := h.1
  rw [List.getElem?_eq_none (by omega)] at this
  exact Option.noConfusion this

/-- C13: for a lock handle `l` inside the lock table, whatever lies outside
the table, `CondCreate(l)` returns
`INVALID_COND` and changes nothing when the owner field of the lock is not
`-1`; when it is `-1` and some condition slot has `inuse = 0`, it returns the
lowest such index and changes that slot only, to `inuse = 1`, associated lock
`l` and an empty waiting queue.  In particular, after a successful
`LockCreate` with a free condition slot, `CondCreate` on the new lock returns
a slot index, and after a process has acquired that lock `CondCreate` on it
returns `INVALID_COND` and changes nothing. -/
theorem CondCreate_ownership (outside : Int → Option Int) (l : Int) (K : Kernel) (k : Lock)
    (hl : 0 ≤ l)
    (hk : K.locks[l.toNat]? = some k) (K0 : Kernel) (p : Nat)
    (hcreate : (LockCreate K0).1 ≠ SYNC_FAIL) (hfree0 : ∃ c ∈ K0.conds, c.inuse = 0) :
    (k.pid ≠ -1 → CondCreate outside l K = some (INVALID_COND, K)) ∧
    (k.pid = -1 → (∃ c ∈ K.conds, c.inuse = 0) →
      ∃ i : Nat, lowestFree (K.conds.map Cond.inuse) i ∧
        CondCreate outside l K = some ((i : Int), { K with conds := K.conds.set i ⟨1, l, []⟩ })) ∧
    (∃ i : Nat, lowestFree (K0.conds.map Cond.inuse) i ∧
      CondCreate outside (LockCreate K0).1 (LockCreate K0).2 =
        some ((i : Int),
          { (LockCreate K0).2 with conds := K0.conds.set i ⟨1, (LockCreate K0).1, []⟩ })) ∧
    (LockHandleAcquire p (LockCreate K0).1 (LockCreate K0).2).1 = SYNC_SUCCESS ∧
    CondCreate outside (LockCreate K0).1 (LockHandleAcquire p (LockCreate K0).1 (LockCreate K0).2).2 =
      some (INVALID_COND, (LockHandleAcquire p (LockCreate K0).1 (LockCreate K0).2).2) := by
  have gen : ∀ (l : Int) (K : Kernel) (k : Lock), 0 ≤ l → K.locks[l.toNat]? = some k →
      k.pid = -1 → (∃ c ∈ K.conds, c.inuse = 0) →
      ∃ i : Nat, lowestFree (K.conds.map Cond.inuse) i ∧
        CondCreate outside l K = some ((i : Int), { K with conds := K.conds.set i ⟨1, l, []⟩ }) := by
    intro l K k hl hk hp hfree
    rcases CondCreate_free_cases outside l K k hl hk hp with ⟨_, hall⟩ | h
    · obtain ⟨c, hc, hc0⟩ := hfree
      exact absurd hc0 (hall c hc)
    · exact h
  refine ⟨CondCreate_owned outside l K k hl hk, gen l K k hl hk, ?_⟩
  rcases LockCreate_cases K0 with ⟨he, _⟩ | ⟨i, hlow, _, he⟩
  · rw [he] at hcreate; exact absurd rfl hcreate
  · have hlt : i < K0.locks.length := by
      have := lowestFree_lt hlow
      rwa [List.length_map] at this
    rw [he]
    have hslot : ({ K0 with locks := K0.locks.set i ⟨1, -1, []⟩ } : Kernel).locks[
        ((i : Nat) : Int).toNat]? = some ⟨1, -1, []⟩ := by
      simp [hlt]
    refine ⟨?_, ?_, ?_⟩
    · exact gen (i : Int) _ _ (Int.ofNat_nonneg _) hslot rfl hfree0
    · have hneg : ¬ ((-1 : Int) = (p : Int)) := by omega
      have hi0 : ¬ ((i : Int) < 0) := by omega
      have hi1 : ¬ K0.locks.length ≤ i := by omega
      simp [LockHandleAcquire, Kernel.MAX_LOCKS, hlt, LockAcquire, hneg, hi0, hi1]
    · have hneg : ¬ ((-1 : Int) = (p : Int)) := by omega
      have hneg2 : ¬ ((p : Int) = -1) := by omega
      have hacq : (LockHandleAcquire p (i : Int) { K0 with locks := K0.locks.set i ⟨1, -1, []⟩ }).2.locks[
          ((i : Nat) : Int).toNat]? = some ⟨1, (p : Int), []⟩ := by
        have hi0 : ¬ ((i : Int) < 0) := by omega
        have hi1 : ¬ K0.locks.length ≤ i := by omega
        simp [LockHandleAcquire, Kernel.MAX_LOCKS, hlt, LockAcquire, hneg, DisableIntrs,
          RestoreIntrs, hi0, hi1]
      exact CondCreate_owned outside (i : Int) _ _ (Int.ofNat_nonneg _) hacq hneg2

theorem CondCreate_ownership_witness :
    ((0 : Int) ≤ 0 ∧
      (LockCreate (Kernel.booted 2 2 2)).2.locks[(0 : Int).toNat]? = some ⟨1, -1, []⟩ ∧
      (LockCreate (Kernel.booted 2 2 2)).1 ≠ SYNC_FAIL ∧
      ∃ c ∈ (Kernel.booted 2 2 2).conds, c.inuse = 0) ∧
    CondCreate (fun _ => none) (LockCreate (Kernel.booted 2 2 2)).1
        (LockHandleAcquire 7 (LockCreate (Kernel.booted 2 2 2)).1
          (LockCreate (Kernel.booted 2 2 2)).2).2 =
      some (INVALID_COND,
        (LockHandleAcquire 7 (LockCreate (Kernel.booted 2 2 2)).1
          (LockCreate (Kernel.booted 2 2 2)).2).2) :=
  ⟨⟨by decide, by decide, by decide, by decide⟩,
    (CondCreate_ownership (fun _ => none) 0 (LockCreate (Kernel.booted 2 2 2)).2 ⟨1, -1, []⟩ (by decide)
      (by decide) (Kernel.booted 2 2 2) 7 (by decide) (by decide)).2.2.2.2⟩

/-- C14 at a failing input, on a freshly booted kernel with two lock slots:
for the handle 1000000000, far outside the lock table, the unchecked read of
`locks[lock].pid` leaves the memory and `CondCreate` has no result instead of
returning `INVALID_COND`.  Next to the table, where the read finds zeroed
storage, the handles `-1` and `2` give `INVALID_COND` with nothing allocated,
and so does the slot 1 that `LockCreate` never gave out, whose owner field is
0; were the word found `-1`, a condition variable would be created for the
handle 2 that names no lock. -/
theorem CondCreate_unchecked_handle :
    CondCreate (fun _ => none) 1000000000 (Kernel.booted 2 2 2) = none ∧
    CondCreate (fun _ => some 0) (-1) (Kernel.booted 2 2 2) =
      some (INVALID_COND, Kernel.booted 2 2 2) ∧
    CondCreate (fun _ => some 0) 2 (Kernel.booted 2 2 2) =
      some (INVALID_COND, Kernel.booted 2 2 2) ∧
    CondCreate (fun _ => none) 1 (Kernel.booted 2 2 2) =
      some (INVALID_COND, Kernel.booted 2 2 2) ∧
    CondCreate (fun _ => some (-1)) 2 (Kernel.booted 2 2 2) =
      some (0, { Kernel.booted 2 2 2 with conds := [⟨1, 2, []⟩, ⟨0, 0, []⟩] }) := by
  refine ⟨?_, ?_, ?_, ?_, ?_⟩ <;> decide

theorem CondCreate_out_of_range (outside : Int → Option Int) (l : Int) (K : Kernel)
    (h : l < 0 ∨ (K.MAX_LOCKS : Int) ≤ l) :
    (outside l = none → CondCreate outside l K = none) ∧
    (∀ v, outside l = some v → v ≠ -1 → CondCreate outside l K = some (INVALID_COND, K)) := by
  have hr : readLockPid outside l K = outside l := by
    rcases h with h | h
    · simp [readLockPid, h]
    · have h0 : ¬ l < 0 := by omega
      have h1 : K.locks[l.toNat]? = none := by
        apply List.getElem?_eq_none
        simp only [Kernel.MAX_LOCKS] at h
        omega
      simp [readLockPid, h0, h1]
  refine ⟨fun hn => ?_, fun v hv hne => ?_⟩
  · simp [CondCreate, hr, hn]
  · simp [CondCreate, hr, hv, hne]

/-- C15 at a failing input: on the kernel reached from boot by `LockCreate`,
`CondCreate` on the new lock and `LockAcquire` by process 1, process 2 does
not own the lock.  `CondHandleWait` by process 2 does not return `SYNC_FAIL`:
it puts 2 on the queue and suspends it.  When process 1 then signals and the
woken process 2 continues, its `CondWait` writes 2 into the owner field and
returns `SYNC_SUCCESS`.  `CondHandleSignal` by a process that does not own the
lock returns `SYNC_SUCCESS` as well, and with process 2 waiting it wakes 2 and
suspends the caller on the queue. -/
theorem cond_ops_ignore_owner :
    (lockCondSetup.bind fun s => lockRun s.1 s.2.1 [LockOp.acquire 1] ⟨s.2.2, [], [], []⟩).map
        (fun r => r.K) =
      some
        { sems := [⟨0, 0, []⟩, ⟨0, 0, []⟩]
          locks := [⟨1, 1, []⟩, ⟨0, 0, []⟩]
          conds := [⟨1, 0, []⟩, ⟨0, 0, []⟩]
          m := ⟨true, [], []⟩ } ∧
    CondHandleWait 2 0
        { sems := [⟨0, 0, []⟩, ⟨0, 0, []⟩]
          locks := [⟨1, 1, []⟩, ⟨0, 0, []⟩]
          conds := [⟨1, 0, []⟩, ⟨0, 0, []⟩]
          m := ⟨true, [], []⟩ } =
      (Ctl.slept true,
        { sems := [⟨0, 0, []⟩, ⟨0, 0, []⟩]
          locks := [⟨1, 1, []⟩, ⟨0, 0, []⟩]
          conds := [⟨1, 0, [2]⟩, ⟨0, 0, []⟩]
          m := ⟨false, [2], []⟩ }) ∧
    (lockCondSetup.bind fun s =>
        lockRun s.1 s.2.1
          [LockOp.acquire 1, LockOp.condWait 2, LockOp.condSignal 1, LockOp.condResume 2]
          ⟨s.2.2, [], [], []⟩).map
        (fun r => (r.K.locks[0]?.map Lock.pid, r.rets)) =
      some (some 2, [SYNC_SUCCESS, SYNC_SUCCESS, SYNC_SUCCESS]) ∧
    (CondHandleSignal 2 0
        { sems := [⟨0, 0, []⟩, ⟨0, 0, []⟩]
          locks := [⟨1, 1, []⟩, ⟨0, 0, []⟩]
          conds := [⟨1, 0, []⟩, ⟨0, 0, []⟩]
          m := ⟨true, [], []⟩ }).1 = SYNC_SUCCESS ∧
    CondHandleSignal 3 0
        { sems := [⟨0, 0, []⟩, ⟨0, 0, []⟩]
          locks := [⟨1, 1, []⟩, ⟨0, 0, []⟩]
          conds := [⟨1, 0, [2]⟩, ⟨0, 0, []⟩]
          m := ⟨false, [2], []⟩ } =
      (SYNC_SUCCESS,
        { sems := [⟨0, 0, []⟩, ⟨0, 0, []⟩]
          locks := [⟨1, 1, []⟩, ⟨0, 0, []⟩]
          conds := [⟨1, 0, [3]⟩, ⟨0, 0, []⟩]
          m := ⟨false, [3], [2]⟩ }) := by
  refine ⟨?_, ?_, ?_, ?_, ?_⟩ <;> decide

/-- C17: `CondSignal` returns `SYNC_SUCCESS`; with an empty waiting queue the
condition variable and the machine are unchanged (the caller is not put to
sleep); with waiting queue `h :: t` the process `h` and nobody else is woken,
the queue becomes `t` with the caller at the tail, and the caller is put to
sleep; the length of the queue is the same before and after. -/
theorem CondSignal_post (p : Nat) (c : Cond) (m : Machine) :
    (CondSignal p c m).1 = SYNC_SUCCESS ∧
    (CondSignal p c m).2 =
      (match c.waiting with
        | [] => (c, m)
        | h :: t =>
          ({ c with waiting := t ++ [p] },
            { m with asleep := m.asleep.erase h ++ [p], woken := m.woken ++ [h] })) ∧
    (CondSignal p c m).2.1.waiting.length = c.waiting.length := by
  cases m
  cases hq : c.waiting <;>
    simp [CondSignal, DisableIntrs, RestoreIntrs, ProcessWakeup, ProcessSleep,
      AQueueInsertLast, hq]

/-- C18: the first half of `CondWait` puts the caller at the tail of the
waiting queue and puts it to sleep, with interrupts masked and the old mask
saved; it leaves the rest of the condition variable alone, wakes nobody and
does not touch the lock table.  The second half, run on waiting queue `q1`,
writes the caller's pid into the owner field of the associated lock whatever
the owner was, then removes and wakes the head of `q1` if there is one
(keeping the tail in order) and wakes nobody otherwise, restores the saved
mask and returns `SYNC_SUCCESS`.  A call of `CondWait` is the first half: it
always suspends its caller. -/
theorem CondWait_protocol (p : Nat) (c : Cond) (locks : List Lock) (m : Machine) (iv : Bool)
    (k : Lock) (hl : 0 ≤ c.cond_lock) (hk : locks[c.cond_lock.toNat]? = some k) :
    CondWait.block p c m =
      (m.intrs, { c with waiting := c.waiting ++ [p] },
        { m with intrs := false, asleep := m.asleep ++ [p] }) ∧
    CondWait.resume p iv c locks m =
      some (SYNC_SUCCESS,
        (match c.waiting with
          | [] => c
          | _ :: t => { c with waiting := t }),
        locks.set c.cond_lock.toNat { k with pid := (p : Int) },
        (match c.waiting with
          | [] => { m with intrs := iv }
          | h :: _ =>
            { m with intrs := iv, asleep := m.asleep.erase h, woken := m.woken ++ [h] })) ∧
    CondWait p c m =
      (Ctl.slept m.intrs, { c with waiting := c.waiting ++ [p] },
        { m with intrs := false, asleep := m.asleep ++ [p] }) := by
  have h0 : ¬ c.cond_lock < 0 := by omega
  refine ⟨?_, ?_, ?_⟩
  · simp [CondWait.block, DisableIntrs, ProcessSleep, AQueueInsertLast]
  · cases hq : c.waiting <;>
      simp [CondWait.resume, h0, hk, hq, RestoreIntrs, ProcessWakeup]
  · simp [CondWait, CondWait.block, DisableIntrs, ProcessSleep, AQueueInsertLast]

theorem CondWait_protocol_witness :
    ((0 : Int) ≤ (⟨1, 0, [4, 5]⟩ : Cond).cond_lock ∧
      ([⟨1, 9, []⟩] : List Lock)[(⟨1, 0, [4, 5]⟩ : Cond).cond_lock.toNat]? = some ⟨1, 9, []⟩) ∧
    CondWait.resume 3 true ⟨1, 0, [4, 5]⟩ [⟨1, 9, []⟩] ⟨false, [4, 5], []⟩ =
      some (SYNC_SUCCESS,
        (match (⟨1, 0, [4, 5]⟩ : Cond).waiting with
          | [] => ⟨1, 0, [4, 5]⟩
          | _ :: t => { (⟨1, 0, [4, 5]⟩ : Cond) with waiting := t }),
        ([⟨1, 9, []⟩] : List Lock).set (⟨1, 0, [4, 5]⟩ : Cond).cond_lock.toNat
          { (⟨1, 9, []⟩ : Lock) with pid := ((3 : Nat) : Int) },
        (match (⟨1, 0, [4, 5]⟩ : Cond).waiting with
          | [] => { (⟨false, [4, 5], []⟩ : Machine) with intrs := true }
          | h :: _ =>
            { (⟨false, [4, 5], []⟩ : Machine) with
              intrs := true
              asleep := (⟨false, [4, 5], []⟩ : Machine).asleep.erase h
              woken := (⟨false, [4, 5], []⟩ : Machine).woken ++ [h] })) :=
  ⟨⟨by decide, by decide⟩,
    (CondWait_protocol 3 ⟨1, 0, [4, 5]⟩ [⟨1, 9, []⟩] ⟨false, [4, 5], []⟩ true ⟨1, 9, []⟩
      (by decide) (by decide)).2.1⟩

/-- C19 at a failing input: `LockRelease` by process 2 on a lock owned by
process 1, entered with interrupts enabled, returns `SYNC_FAIL` with
interrupts still disabled: the path returns after `DisableIntrs` without
`RestoreIntrs`. -/
theorem LockRelease_leaves_interrupts_off :
    (⟨true, [], []⟩ : Machine).intrs = true ∧
    (LockRelease 2 (some ⟨1, 1, []⟩) ⟨true, [], []⟩).1 = SYNC_FAIL ∧
    (LockRelease 2 (some ⟨1, 1, []⟩) ⟨true, [], []⟩).2.2.intrs = false := by
  decide

theorem intrs_restored_elsewhere (cur : Nat) (n : Int) (l : Int) (s : Sem) (k : Lock) (c : Cond)
    (locks : List Lock) (m : Machine) (K : Kernel) (iv : Bool) (outside : Int → Option Int) :
    (0 < s.count → (SemWait cur (some s) m).2.2.intrs = m.intrs) ∧
    (SemWait.resume iv s m).2.2.intrs = iv ∧
    (SemSignal (some s) m).2.2.intrs = m.intrs ∧
    (LockAcquire cur (some k) m).2.2.intrs = m.intrs ∧
    (k.pid = (cur : Int) → (LockRelease cur (some k) m).2.2.intrs = m.intrs) ∧
    (CondSignal cur c m).2.2.intrs = m.intrs ∧
    (∀ r, CondWait.resume cur iv c locks m = some r → r.2.2.2.intrs = iv) ∧
    (SemCreate n K).2.m.intrs = K.m.intrs ∧
    (LockCreate K).2.m.intrs = K.m.intrs ∧
    (∀ r, CondCreate outside l K = some r → r.2.m.intrs = K.m.intrs) := by
  refine ⟨?_, ?_, ?_, ?_, ?_, ?_, ?_, ?_, ?_, ?_⟩
  · intro hpos
    rcases SemWait_cases cur s m with ⟨hle, _⟩ | ⟨_, he⟩
    · omega
    · rw [he]
  · rfl
  · rcases SemSignal_cases s m with ⟨_, _, _, _, he⟩ | ⟨_, he⟩
    · rw [he]; rfl
    · rw [he]
  · by_cases h : k.pid = (cur : Int)
    · rw [LockAcquire_owner cur k m h]
    · by_cases h0 : k.pid ≥ 0 <;> simp [LockAcquire, h, h0, DisableIntrs, RestoreIntrs,
        ProcessSleep]
  · intro h
    rw [LockRelease_owner_eq cur k m h]
    split <;> rfl
  · cases hq : c.waiting <;>
      simp [CondSignal, DisableIntrs, RestoreIntrs, ProcessWakeup, ProcessSleep, hq]
  · intro r hr
    simp only [CondWait.resume] at hr
    split at hr
    · exact Option.noConfusion hr
    · split at hr
      · exact Option.noConfusion hr
      · cases hr
        simp [RestoreIntrs]
  · rcases SemCreate_cases n K with ⟨he, _⟩ | ⟨i, _, _, he⟩ <;> rw [he]
  · rcases LockCreate_cases K with ⟨he, _⟩ | ⟨i, _, _, he⟩ <;> rw [he]
  · intro r hr
    cases hp : readLockPid outside l K with
    | none => simp [CondCreate, hp] at hr
    | some pid =>
      by_cases hpid : pid = -1
      · subst hpid
        have hm := RestoreIntrs_DisableIntrs K.m
        simp only [CondCreate, hp] at hr
        simp only [ne_eq, not_true_eq_false, if_false] at hr
        split at hr
        · cases hr; simp [hm]
        · split at hr
          · split at hr <;> (cases hr; simp [hm])
          · cases hr; simp [hm]
      · simp [CondCreate, hp, hpid] at hr
        rw [← hr]

/-- C16 at a failing input, on the kernel reached from boot by `LockCreate`
and `CondCreate`: processes 2 and 3 are suspended in `CondWait` on condition 0
and process 1 calls `CondHandleSignal` once.  The signal wakes process 2,
whose statements after `ProcessSleep` wake process 3, whose statements wake
the signaller: both waiters return from `CondWait` and the queue is empty.
On a condition variable with nobody waiting the signal changes nothing. -/
theorem one_signal_wakes_all :
    (lockCondSetup.bind fun s => condBlockAll 0 [2, 3] ⟨s.2.2, [], []⟩).map
        (fun r => (r.K.conds[0]?.map Cond.waiting, r.K.m.asleep, r.returned)) =
      some (some [2, 3], [2, 3], []) ∧
    (lockCondSetup.bind fun s =>
        (condBlockAll 0 [2, 3] ⟨s.2.2, [], []⟩).bind (signalAndResume 0 1)).map
        (fun r => (r.K.conds[0]?.map Cond.waiting, r.K.m.woken, r.returned, r.inWait)) =
      some (some [], [2, 3, 1], [2, 3], []) ∧
    lockCondSetup.map (fun s => CondHandleSignal 1 0 s.2.2) =
      lockCondSetup.map (fun s => (SYNC_SUCCESS, s.2.2)) := by
  refine ⟨?_, ?_, ?_⟩ <;> decide

theorem LockAcquire_free (cur : Nat) (k : Lock) (m : Machine)
    (hne : k.pid ≠ (cur : Int)) (hfree : ¬ 0 ≤ k.pid) :
    LockAcquire cur (some k) m = (SYNC_SUCCESS, some { k with pid := (cur : Int) }, m) := by
  cases m
  simp [LockAcquire, DisableIntrs, RestoreIntrs, hne, hfree]

theorem LockInv_acquire (p : Nat) (k : Lock) (m : Machine) (hinv : LockInv k m)
    (hp : p ∉ m.asleep) :
    ∃ r k1 m1, LockAcquire p (some k) m = (r, some k1, m1) ∧ LockInv k1 m1 := by
  obtain ⟨hnd, hsub, hown, hnot⟩ := hinv
  by_cases h : k.pid = (p : Int)
  · exact ⟨_, _, _, LockAcquire_owner p k m h, hnd, hsub, hown, hnot⟩
  · by_cases h0 : 0 ≤ k.pid
    · refine ⟨_, _, _, LockAcquire_other p k m h h0, ?_, ?_, fun _ => h0, ?_⟩
      · have hpq : p ∉ k.waiting := fun hin => hp (hsub p hin)
        simp only []
        rw [List.nodup_append]
        refine ⟨hnd, List.nodup_singleton p, ?_⟩
        intro a ha hb
        rw [List.mem_singleton] at hb
        subst hb
        exact hpq ha
      · intro q hq
        simp only [List.mem_append, List.mem_singleton] at hq ⊢
        rcases hq with hq | hq
        · exact Or.inl (hsub q hq)
        · exact Or.inr hq
      · intro q hq
        simp only [List.mem_append, List.mem_singleton] at hq
        rcases hq with hq | hq
        · exact hnot q hq
        · subst hq; exact fun e => h e.symm
    · have hemp : k.waiting = [] := by
        by_contra hne
        exact h0 (hown hne)
      refine ⟨_, _, _, LockAcquire_free p k m h h0, ?_⟩
      simp only [LockInv, hemp]
      simp

theorem LockInv_release (p : Nat) (k : Lock) (m : Machine) (hinv : LockInv k m) :
    ∃ r k1 m1, LockRelease p (some k) m = (r, some k1, m1) ∧ LockInv k1 m1 := by
  obtain ⟨hnd, hsub, hown, hnot⟩ := hinv
  by_cases h : k.pid = (p : Int)
  · rw [LockRelease_owner_eq p k m h]
    cases hq : k.waiting with
    | nil =>
      refine ⟨_, _, _, rfl, ?_⟩
      simp only [LockInv, hq]
      simp
    | cons a t =>
      rw [hq] at hnd hsub hnot
      rw [List.nodup_cons] at hnd
      refine ⟨_, _, _, rfl, hnd.2, ?_, fun _ => Int.ofNat_nonneg a, ?_⟩
      · intro q hq1
        have hqa : q ≠ a := fun e => hnd.1 (e ▸ hq1)
        simp only [ProcessWakeup]
        exact (List.mem_erase_of_ne hqa).2 (hsub q (List.mem_cons_of_mem _ hq1))
      · intro q hq1 e
        have e2 : (q : Int) = (a : Int) := e
        have hqa : q = a := by exact_mod_cast e2
        exact hnd.1 (hqa ▸ hq1)
  · refine ⟨SYNC_FAIL, k, (DisableIntrs m).2, ?_, hnd, ?_, hown, hnot⟩
    · simp [LockRelease, h]
    · exact hsub

theorem LockHandleAcquire_step (cur : Nat) (i : Nat) (K : Kernel) (k : Lock)
    (hk : K.locks[i]? = some k) :
    LockHandleAcquire cur (i : Int) K = (SYNC_FAIL, K) ∨
    ∀ r k1 m1, LockAcquire cur (some k) K.m = (r, some k1, m1) →
      LockHandleAcquire cur (i : Int) K = (r, { K with locks := K.locks.set i k1, m := m1 }) := by
  have hlt : i < K.locks.length := by
    by_contra hge
    rw [List.getElem?_eq_none (by omega)] at hk
    exact Option.noConfusion hk
  have h0 : ¬ ((i : Int) < 0) := by omega
  have h1 : ¬ ((i : Int) ≥ (K.MAX_LOCKS : Int)) := by simp only [Kernel.MAX_LOCKS]; omega
  by_cases hf : k.inuse = 0
  · left
    simp [LockHandleAcquire, hk, hf]
  · right
    intro r k1 m1 he
    simp only [LockHandleAcquire, if_neg h0, if_neg h1, Int.toNat_ofNat, hk, Option.map_some',
      Option.getD_some, if_neg hf, he]

theorem LockHandleRelease_step (cur : Nat) (i : Nat) (K : Kernel) (k : Lock)
    (hk : K.locks[i]? = some k) :
    LockHandleRelease cur (i : Int) K = (SYNC_FAIL, K) ∨
    ∀ r k1 m1, LockRelease cur (some k) K.m = (r, some k1, m1) →
      LockHandleRelease cur (i : Int) K = (r, { K with locks := K.locks.set i k1, m := m1 }) := by
  have hlt : i < K.locks.length := by
    by_contra hge
    rw [List.getElem?_eq_none (by omega)] at hk
    exact Option.noConfusion hk
  have h0 : ¬ ((i : Int) < 0) := by omega
  have h1 : ¬ ((i : Int) ≥ (K.MAX_LOCKS : Int)) := by simp only [Kernel.MAX_LOCKS]; omega
  by_cases hf : k.inuse = 0
  · left
    simp [LockHandleRelease, hk, hf]
  · right
    intro r k1 m1 he
    simp only [LockHandleRelease, if_neg h0, if_neg h1, Int.toNat_ofNat, hk, Option.map_some',
      Option.getD_some, if_neg hf, he]

theorem slot_after_set (i : Nat) (K : Kernel) (k k1 : Lock) (m1 : Machine)
    (hk : K.locks[i]? = some k) :
    ({ K with locks := K.locks.set i k1, m := m1 } : Kernel).locks[i]? = some k1 := by
  have hlt : i < K.locks.length := by
    by_contra hge
    rw [List.getElem?_eq_none (by omega)] at hk
    exact Option.noConfusion hk
  simp [hlt]

theorem lockOnlyRun_inv (i : Nat) (ops : List LockOp) :
    ∀ (K K1 : Kernel), (∃ k, K.locks[i]? = some k ∧ LockInv k K.m) →
      lockOnlyRun (i : Int) ops K = some K1 →
      ∃ k, K1.locks[i]? = some k ∧ LockInv k K1.m := by
  induction ops with
  | nil =>
    intro K K1 hinv hrun
    simp only [lockOnlyRun, Option.some.injEq] at hrun
    subst hrun
    exact hinv
  | cons op ops ih =>
    intro K K1 hinv hrun
    obtain ⟨k, hk, hk2⟩ := hinv
    cases op with
    | acquire p =>
      simp only [lockOnlyRun] at hrun
      by_cases hp : p ∈ K.m.asleep
      · rw [if_pos hp] at hrun; exact Option.noConfusion hrun
      · rw [if_neg hp] at hrun
        refine ih _ K1 ?_ hrun
        obtain ⟨r, k1, m1, he, hinv1⟩ := LockInv_acquire p k K.m hk2 hp
        rcases LockHandleAcquire_step p i K k hk with hfail | hok
        · rw [hfail]; exact ⟨k, hk, hk2⟩
        · rw [hok r k1 m1 he]
          exact ⟨k1, slot_after_set i K k k1 m1 hk, hinv1⟩
    | release p =>
      simp only [lockOnlyRun] at hrun
      by_cases hp : p ∈ K.m.asleep
      · rw [if_pos hp] at hrun; exact Option.noConfusion hrun
      · rw [if_neg hp] at hrun
        refine ih _ K1 ?_ hrun
        obtain ⟨r, k1, m1, he, hinv1⟩ := LockInv_release p k K.m hk2
        rcases LockHandleRelease_step p i K k hk with hfail | hok
        · rw [hfail]; exact ⟨k, hk, hk2⟩
        · rw [hok r k1 m1 he]
          exact ⟨k1, slot_after_set i K k k1 m1 hk, hinv1⟩
    | condWait p => simp only [lockOnlyRun] at hrun; exact Option.noConfusion hrun
    | condSignal p => simp only [lockOnlyRun] at hrun; exact Option.noConfusion hrun
    | condResume p => simp only [lockOnlyRun] at hrun; exact Option.noConfusion hrun

/-- C20: in every state reached from a successful `LockCreate` by
`LockAcquire` and `LockRelease` calls on the new lock, each made by a process
that is not asleep when it calls, if the waiting queue of the lock is not
empty then the owner field is not negative, no process on the queue is the
owner, and no process is on the queue twice; moreover every process on the
queue is asleep. -/
theorem no_stranded_waiter (K0 K : Kernel) (ops : List LockOp) (k : Lock)
    (hcreate : (LockCreate K0).1 ≠ SYNC_FAIL)
    (hrun : lockOnlyRun (LockCreate K0).1 ops (LockCreate K0).2 = some K)
    (hk : K.locks[(LockCreate K0).1.toNat]? = some k) (hq : k.waiting ≠ []) :
    0 ≤ k.pid ∧ (∀ p ∈ k.waiting, (p : Int) ≠ k.pid) ∧ k.waiting.Nodup ∧
      ∀ p ∈ k.waiting, p ∈ K.m.asleep := by
  rcases LockCreate_cases K0 with ⟨he, _⟩ | ⟨i, hlow, _, he⟩
  · rw [he] at hcreate; exact absurd rfl hcreate
  · have hlt : i < K0.locks.length := by
      have := lowestFree_lt hlow
      rwa [List.length_map] at this
    rw [he] at hrun hk
    simp only [Int.toNat_ofNat] at hk
    have hinit : ∃ k, ({ K0 with locks := K0.locks.set i ⟨1, -1, []⟩ } : Kernel).locks[i]? = some k ∧
        LockInv k ({ K0 with locks := K0.locks.set i ⟨1, -1, []⟩ } : Kernel).m := by
      refine ⟨⟨1, -1, []⟩, by simp [hlt], ?_⟩
      simp [LockInv]
    obtain ⟨k2, hk2, hnd, hsub, hown, hnot⟩ := lockOnlyRun_inv i ops _ K hinit hrun
    rw [hk] at hk2
    cases hk2
    exact ⟨hown hq, hnot, hnd, hsub⟩

theorem no_stranded_waiter_witness :
    ((LockCreate (Kernel.booted 2 2 2)).1 ≠ SYNC_FAIL ∧
      lockOnlyRun (LockCreate (Kernel.booted 2 2 2)).1
          [LockOp.acquire 1, LockOp.acquire 2, LockOp.acquire 3, LockOp.release 1,
            LockOp.acquire 1]
          (LockCreate (Kernel.booted 2 2 2)).2 =
        some
          { sems := [⟨0, 0, []⟩, ⟨0, 0, []⟩]
            locks := [⟨1, 2, [3, 1]⟩, ⟨0, 0, []⟩]
            conds := [⟨0, 0, []⟩, ⟨0, 0, []⟩]
            m := ⟨true, [3, 1], [2]⟩ } ∧
      ([⟨1, 2, [3, 1]⟩, ⟨0, 0, []⟩] : List Lock)[(LockCreate (Kernel.booted 2 2 2)).1.toNat]? =
        some ⟨1, 2, [3, 1]⟩ ∧
      (⟨1, 2, [3, 1]⟩ : Lock).waiting ≠ []) ∧
    ((0 : Int) ≤ (⟨1, 2, [3, 1]⟩ : Lock).pid ∧
      (∀ p ∈ (⟨1, 2, [3, 1]⟩ : Lock).waiting, (p : Int) ≠ (⟨1, 2, [3, 1]⟩ : Lock).pid) ∧
      (⟨1, 2, [3, 1]⟩ : Lock).waiting.Nodup ∧
      ∀ p ∈ (⟨1, 2, [3, 1]⟩ : Lock).waiting, p ∈ (⟨true, [3, 1], [2]⟩ : Machine).asleep) :=
  ⟨⟨by decide, by decide, by decide, by decide⟩,
    no_stranded_waiter (Kernel.booted 2 2 2)
      { sems := [⟨0, 0, []⟩, ⟨0, 0, []⟩]
        locks := [⟨1, 2, [3, 1]⟩, ⟨0, 0, []⟩]
        conds := [⟨0, 0, []⟩, ⟨0, 0, []⟩]
        m := ⟨true, [3, 1], [2]⟩ }
      [LockOp.acquire 1, LockOp.acquire 2, LockOp.acquire 3, LockOp.release 1, LockOp.acquire 1]
      ⟨1, 2, [3, 1]⟩ (by decide) (by decide) (by decide) (by decide)⟩

end Synch
